import Mathlib

/-!
Verification of the chat4all message pipeline against its specification.

The Python services are shallowly embedded: the relational tables of the
metadata store become lists of rows, SQL statements become list
transformations, and each worker's handler becomes a pure function from its
inputs (parsed event, failure outcomes of its I/O calls) to its effects
(committed offsets, published events, table updates).
-/

namespace Chat4all

/-- Errors raised by `ConversationRepository` (repository.py):
`ConversationNotFoundError` and the generic `RepositoryError`. -/
inductive RepoError where
  | notFound : RepoError
  | dbError : RepoError
deriving DecidableEq, Repr

/-- A row of the `conversations` table, restricted to the columns the
sequencer touches: `conversation_id` and `last_sequence_number`. -/
structure ConvRow where
  conversation_id : String
  last_sequence_number : Nat
deriving DecidableEq, Repr

/-- A row of the `message_sequences_log` table:
`(message_id, conversation_id, sequence_number)`. -/
structure SeqLogRow where
  message_id : String
  conversation_id : String
  sequence_number : Nat
deriving DecidableEq, Repr

/-- The metadata store state used by the sequencer: the `conversations`
table and the `message_sequences_log` table. -/
structure MetaState where
  conversations : List ConvRow
  seqLog : List SeqLogRow
deriving DecidableEq, Repr

/-- Embedding of `ConversationRepository.get_or_create_sequence`
(repository.py lines 77-125):
1. `SELECT sequence_number FROM message_sequences_log WHERE message_id = %s`;
   if a row exists, return its stored sequence (no write).
2. Otherwise `UPDATE conversations SET last_sequence_number =
   last_sequence_number + 1 WHERE conversation_id = %s RETURNING
   last_sequence_number`; if no row matched, raise
   `ConversationNotFoundError` (the transaction is not committed, so the
   state is unchanged).
3. `INSERT INTO message_sequences_log` the triple
   `(message_id, conversation_id, new_sequence)` and return `new_sequence`. -/
def getOrCreateSequence (s : MetaState) (cid mid : String) :
    Except RepoError (Nat × MetaState) :=
  match s.seqLog.find? (fun r => r.message_id == mid) with
  | some r => .ok (r.sequence_number, s)
  | none =>
    match s.conversations.find? (fun c => c.conversation_id == cid) with
    | none => .error .notFound
    | some c =>
      let newSeq := c.last_sequence_number + 1
      .ok (newSeq,
        { conversations := s.conversations.map (fun c2 =>
            if c2.conversation_id == cid then
              { c2 with last_sequence_number := c2.last_sequence_number + 1 }
            else c2),
          seqLog := s.seqLog ++ [⟨mid, cid, newSeq⟩] })

/-- The stored sequence for a message id, read from `message_sequences_log`. -/
def logLookup (s : MetaState) (mid : String) : Option Nat :=
  (s.seqLog.find? (fun r => r.message_id == mid)).map (·.sequence_number)

/-- The `last_sequence_number` of a conversation row. -/
def convLookup (s : MetaState) (cid : String) : Option Nat :=
  (s.conversations.find? (fun c => c.conversation_id == cid)).map
    (·.last_sequence_number)

/-- The sequence numbers recorded in `message_sequences_log` for one
conversation, in table order. -/
def seqsOf (s : MetaState) (cid : String) : List Nat :=
  (s.seqLog.filter (fun r => r.conversation_id == cid)).map (·.sequence_number)

/-- One `next_sequence` call as a state transformer: on success the new
state, on failure (the transaction aborts) the unchanged state. -/
def applyNextSequence (s : MetaState) (call : String × String) : MetaState :=
  match getOrCreateSequence s call.1 call.2 with
  | .ok (_, s') => s'
  | .error _ => s

/-- Sequencer invariant for one conversation: its row holds `last`, and the
log records exactly the sequences `1, 2, ..., last` for it, in order. -/
def SeqInvariant (s : MetaState) (cid : String) : Prop :=
  ∃ last, convLookup s cid = some last ∧ seqsOf s cid = List.range' 1 last

/-- Claim C1: `next_sequence` is idempotent: a message id already in the
sequence log gets its stored sequence back with the state unchanged; a new
message id on an existing conversation increments `last_sequence_number`,
appends the log row and returns the new value; a new message id on a
missing conversation fails with `NotFound`; and calling the operation twice
with the same `(conversation, message)` pair returns the same sequence. -/
theorem next_sequence_contract (s : MetaState) (cid mid : String) :
    (∀ n, logLookup s mid = some n → getOrCreateSequence s cid mid = .ok (n, s)) ∧
    (logLookup s mid = none → ∀ last, convLookup s cid = some last →
      getOrCreateSequence s cid mid = .ok (last + 1,
        { conversations := s.conversations.map (fun c2 =>
            if c2.conversation_id == cid then
              { c2 with last_sequence_number := c2.last_sequence_number + 1 }
            else c2),
          seqLog := s.seqLog ++ [⟨mid, cid, last + 1⟩] })) ∧
    (logLookup s mid = none → convLookup s cid = none →
      getOrCreateSequence s cid mid = .error .notFound) ∧
    (∀ n s', getOrCreateSequence s cid mid = .ok (n, s') →
      getOrCreateSequence s' cid mid = .ok (n, s')) := by
  refine ⟨?_, ?_, ?_, ?_⟩
  · intro n hn
    cases hf : s.seqLog.find? (fun r => r.message_id == mid) with
    | none => rw [logLookup, hf] at hn; simp at hn
    | some r =>
      rw [logLookup, hf] at hn
      simp only [Option.map_some', Option.some.injEq] at hn
      simp [getOrCreateSequence, hf, hn]
  · intro h0 last hc
    rw [logLookup, Option.map_eq_none'] at h0
    rw [convLookup, Option.map_eq_some'] at hc
    obtain ⟨c0, hf, hlast⟩ := hc
    simp [getOrCreateSequence, h0, hf, hlast]
  · intro h0 hc
    rw [logLookup, Option.map_eq_none'] at h0
    rw [convLookup, Option.map_eq_none'] at hc
    simp [getOrCreateSequence, h0, hc]
  · intro n s' h
    cases hf : s.seqLog.find? (fun r => r.message_id == mid) with
    | some r =>
      rw [getOrCreateSequence, hf] at h
      simp only [Except.ok.injEq, Prod.mk.injEq] at h
      obtain ⟨hn, hs⟩ := h
      subst hs
      simp [getOrCreateSequence, hf, hn]
    | none =>
      cases hg : s.conversations.find? (fun c => c.conversation_id == cid) with
      | none => rw [getOrCreateSequence, hf, hg] at h; simp at h
      | some c0 =>
        rw [getOrCreateSequence, hf, hg] at h
        simp only [Except.ok.injEq, Prod.mk.injEq] at h
        obtain ⟨hn, hs⟩ := h
        have hfind : s'.seqLog.find? (fun r => r.message_id == mid) =
            some ⟨mid, cid, c0.last_sequence_number + 1⟩ := by
          rw [← hs]
          simp only [List.find?_append, hf, Option.none_or]
          simp [List.find?]
        rw [getOrCreateSequence, hfind, hn]

/-- Applying the witnessed C1 contract at a concrete state: a fresh message
id on conversation `c1` whose counter is 0 gets sequence 1 and the log row
is appended. -/
theorem next_sequence_contract_witness :
    getOrCreateSequence ⟨[⟨"c1", 0⟩], []⟩ "c1" "m1" =
      .ok (1, ⟨[⟨"c1", 1⟩], [⟨"m1", "c1", 1⟩]⟩) := by
  have h := (next_sequence_contract ⟨[⟨"c1", 0⟩], []⟩ "c1" "m1").2.1 (by rfl) 0 (by rfl)
  simpa using h

/-- Preservation: one `next_sequence` call (for any conversation and message
id) preserves the contiguity invariant of a fixed conversation. -/
theorem seqInvariant_apply (s : MetaState) (cid : String) (call : String × String)
    (h : SeqInvariant s cid) : SeqInvariant (applyNextSequence s call) cid := by
  obtain ⟨last, hc, hs⟩ := h
  rw [applyNextSequence]
  cases hf : s.seqLog.find? (fun r => r.message_id == call.2) with
  | some r => rw [getOrCreateSequence, hf]; exact ⟨last, hc, hs⟩
  | none =>
    cases hg : s.conversations.find? (fun c => c.conversation_id == call.1) with
    | none => rw [getOrCreateSequence, hf, hg]; exact ⟨last, hc, hs⟩
    | some c0 =>
      rw [getOrCreateSequence, hf, hg]
      rw [convLookup, Option.map_eq_some'] at hc
      obtain ⟨c1, hf1, hlast⟩ := hc
      have hc1id : c1.conversation_id = cid := by
        have hp := List.find?_some hf1
        simpa using hp
      by_cases hcid : cid = call.1
      · have hceq : c1 = c0 := by
          rw [hcid] at hf1
          rw [hf1] at hg
          exact Option.some.inj hg
        refine ⟨last + 1, ?_, ?_⟩
        · rw [convLookup, List.find?_map]
          have hcomp : (fun c : ConvRow => c.conversation_id == cid) ∘
              (fun c2 : ConvRow => if c2.conversation_id == call.1 then
                { c2 with last_sequence_number := c2.last_sequence_number + 1 }
              else c2) =
              (fun c2 : ConvRow => c2.conversation_id == cid) := by
            funext c2
            by_cases h2 : c2.conversation_id = call.1 <;> simp [h2]
          rw [hcomp, hf1]
          have hpeq : c1.conversation_id = call.1 := hc1id.trans hcid
          simp [hpeq, hlast]
        · rw [seqsOf]
          simp only [List.filter_append, List.map_append]
          have htrue : (call.1 == cid) = true := by
            rw [beq_iff_eq]
            exact hcid.symm
          have hrow : (List.filter (fun r : SeqLogRow => r.conversation_id == cid)
              [⟨call.2, call.1, c0.last_sequence_number + 1⟩]) =
              [⟨call.2, call.1, c0.last_sequence_number + 1⟩] := by
            simp [List.filter, htrue]
          rw [hrow]
          rw [seqsOf] at hs
          have hc0last : c0.last_sequence_number = last := hceq ▸ hlast
          rw [hs, hc0last]
          have hr := @List.range'_concat 1 1 last
          simp only [one_mul] at hr
          rw [hr]
          simp [Nat.add_comm 1 last]
      · refine ⟨last, ?_, ?_⟩
        · rw [convLookup, List.find?_map]
          have hcomp : (fun c : ConvRow => c.conversation_id == cid) ∘
              (fun c2 : ConvRow => if c2.conversation_id == call.1 then
                { c2 with last_sequence_number := c2.last_sequence_number + 1 }
              else c2) =
              (fun c2 : ConvRow => c2.conversation_id == cid) := by
            funext c2
            by_cases h2 : c2.conversation_id = call.1 <;> simp [h2]
          rw [hcomp, hf1]
          have hpne : ¬ c1.conversation_id = call.1 := fun h2 => hcid (hc1id.symm.trans h2)
          simp [hpne, hlast]
        · rw [seqsOf]
          simp only [List.filter_append, List.map_append]
          have hrow : (List.filter (fun r : SeqLogRow => r.conversation_id == cid)
              [⟨call.2, call.1, c0.last_sequence_number + 1⟩]) = [] := by
            have hfalse : (call.1 == cid) = false := by
              rw [beq_eq_false_iff_ne]
              exact fun he => hcid he.symm
            simp [List.filter, hfalse]
          rw [hrow]
          rw [seqsOf] at hs
          simpa using hs

/-- Preservation of the contiguity invariant under any finite sequence of
`next_sequence` calls. -/
theorem seqInvariant_foldl (cid : String) (calls : List (String × String))
    (s : MetaState) (h : SeqInvariant s cid) :
    SeqInvariant (calls.foldl applyNextSequence s) cid := by
  induction calls generalizing s with
  | nil => exact h
  | cons c cs ih => exact ih _ (seqInvariant_apply s cid c h)

/-- Claim C2: starting from a conversation whose counter is 0 and that has
no sequence-log rows, after any finite sequence of `next_sequence` calls the
sequences recorded for it are exactly `1, 2, ..., last_sequence_number`
(contiguous from 1, no gaps) and no two log rows of the conversation hold
the same sequence number. -/
theorem assigned_sequences_contiguous (cid : String) (s0 : MetaState)
    (calls : List (String × String))
    (hconv : convLookup s0 cid = some 0) (hlog : seqsOf s0 cid = []) :
    ∃ last, convLookup (calls.foldl applyNextSequence s0) cid = some last ∧
      seqsOf (calls.foldl applyNextSequence s0) cid = List.range' 1 last ∧
      ((calls.foldl applyNextSequence s0).seqLog.filter
          (fun r => r.conversation_id == cid)).Pairwise
        (fun r1 r2 => r1.sequence_number ≠ r2.sequence_number) := by
  have h0 : SeqInvariant s0 cid := ⟨0, hconv, by simpa using hlog⟩
  obtain ⟨last, hc, hs⟩ := seqInvariant_foldl cid calls s0 h0
  refine ⟨last, hc, hs, ?_⟩
  have hnd : (seqsOf (calls.foldl applyNextSequence s0) cid).Nodup := by
    rw [hs]
    exact List.nodup_range' 1 last
  rw [seqsOf] at hnd
  rw [List.Nodup, List.pairwise_map] at hnd
  exact hnd

/-- Applying the C2 theorem at a concrete run: two distinct messages and a
duplicate resubmission on a fresh conversation. -/
theorem assigned_sequences_contiguous_witness :
    ∃ last, convLookup
        ([("c", "m1"), ("c", "m2"), ("c", "m1")].foldl applyNextSequence
          ⟨[⟨"c", 0⟩], []⟩) "c" = some last ∧
      seqsOf ([("c", "m1"), ("c", "m2"), ("c", "m1")].foldl applyNextSequence
          ⟨[⟨"c", 0⟩], []⟩) "c" = List.range' 1 last ∧
      (([("c", "m1"), ("c", "m2"), ("c", "m1")].foldl applyNextSequence
          ⟨[⟨"c", 0⟩], []⟩).seqLog.filter
          (fun r => r.conversation_id == "c")).Pairwise
        (fun r1 r2 => r1.sequence_number ≠ r2.sequence_number) :=
  assigned_sequences_contiguous "c" ⟨[⟨"c", 0⟩], []⟩
    [("c", "m1"), ("c", "m2"), ("c", "m1")] (by rfl) (by rfl)

/-- A row of the `user_identities` table: `(user_id, channel, external_id)`. -/
structure IdentityRow where
  user_id : String
  channel : String
  external_id : String
deriving DecidableEq, Repr

/-- Python dict insertion `d[k] = v`: overwrite the value if the key is
already present (keeping its position), else append the new entry. -/
def dictInsert (d : List (String × String)) (k v : String) :
    List (String × String) :=
  if d.any (fun p => p.1 == k) then
    d.map (fun p => if p.1 == k then (k, v) else p)
  else d ++ [(k, v)]

/-- A Python dict built from a sequence of key-value pairs (later pairs
overwrite earlier ones, as in a dict comprehension). -/
def dictOfPairs (ps : List (String × String)) : List (String × String) :=
  ps.foldl (fun d p => dictInsert d p.1 p.2) []

/-- Embedding of `ConversationRepository.get_user_identities`
(repository.py lines 144-155): `SELECT channel, external_id FROM
user_identities WHERE user_id = %s`, then the dict comprehension over the
returned rows. -/
def getUserIdentities (tbl : List IdentityRow) (uid : String) :
    List (String × String) :=
  dictOfPairs ((tbl.filter (fun r => r.user_id == uid)).map
    (fun r => (r.channel, r.external_id)))

/-- An `INSERT ... ON CONFLICT (user_id, channel) DO NOTHING` into
`user_identities`. -/
def insertIdentityIfAbsent (tbl : List IdentityRow) (uid ch ext : String) :
    List IdentityRow :=
  if tbl.any (fun r => r.user_id == uid && r.channel == ch) then tbl
  else tbl ++ [⟨uid, ch, ext⟩]

/-- The fields of a user-created event that `process_user_created` reads. -/
structure UserCreatedInfo where
  user_id : String
  username : String
deriving DecidableEq, Repr

/-- Embedding of the `user_identities` writes of `process_user_created`
(metadata-service consumer.py lines 46-68): always insert the `delivery`
binding `(user_id, 'delivery', user_id)`; when the username is prefixed
`whatsapp:` or `instagram:`, also insert that channel binding with the
suffix as external id. The `users_directory` upsert touches a different
table and is omitted. -/
def processUserCreated (tbl : List IdentityRow) (ev : UserCreatedInfo) :
    List IdentityRow :=
  let tbl1 := insertIdentityIfAbsent tbl ev.user_id "delivery" ev.user_id
  if ev.username.startsWith "whatsapp:" then
    insertIdentityIfAbsent tbl1 ev.user_id "whatsapp"
      ((ev.username.splitOn ":").getD 1 "")
  else if ev.username.startsWith "instagram:" then
    insertIdentityIfAbsent tbl1 ev.user_id "instagram"
      ((ev.username.splitOn ":").getD 1 "")
  else tbl1

/-- Inserting the pair `(k, v)` always makes it a member of the dict. -/
theorem mem_dictInsert_self (d : List (String × String)) (k v : String) :
    (k, v) ∈ dictInsert d k v := by
  rw [dictInsert]
  cases h : d.any (fun p => p.1 == k) with
  | false => simp [h]
  | true =>
    simp only [h, if_true]
    rw [List.any_eq_true] at h
    obtain ⟨p, hp, hpk⟩ := h
    exact List.mem_map.mpr ⟨p, hp, by simp at hpk; simp [hpk]⟩

/-- Dict insertion under a different key preserves an entry. -/
theorem mem_dictInsert_of_ne (d : List (String × String)) (k v : String)
    (p : String × String) (hp : p ∈ d) (hne : p.1 ≠ k) :
    p ∈ dictInsert d k v := by
  rw [dictInsert]
  cases h : d.any (fun q => q.1 == k) with
  | false => simp [hp]
  | true =>
    simp only [h, if_true]
    refine List.mem_map.mpr ⟨p, hp, ?_⟩
    simp [hne]

/-- Building a dict from pairs whose every `k`-keyed pair carries the value
`v` puts the entry `(k, v)` in the dict, provided some `k`-keyed pair occurs
(or the entry is already in the accumulator). -/
theorem mem_dictOfPairs_aux (k v : String) :
    ∀ (ps d : List (String × String)),
      (∀ p ∈ ps, p.1 = k → p.2 = v) →
      ((k, v) ∈ d ∨ ∃ p ∈ ps, p.1 = k) →
      (k, v) ∈ ps.foldl (fun d p => dictInsert d p.1 p.2) d := by
  intro ps
  induction ps with
  | nil =>
    intro d _ hd
    simp only [List.foldl_nil]
    rcases hd with hd | ⟨p, hp, _⟩
    · exact hd
    · simp at hp
  | cons q qs ih =>
    intro d hall hd
    simp only [List.foldl_cons]
    by_cases hq : q.1 = k
    · have hqv : q.2 = v := hall q (List.mem_cons_self q qs) hq
      refine ih _ (fun p hp hpk => hall p (List.mem_cons_of_mem q hp) hpk) (Or.inl ?_)
      have heq : dictInsert d q.1 q.2 = dictInsert d k v := by rw [hq, hqv]
      rw [heq]
      exact mem_dictInsert_self d k v
    · refine ih _ (fun p hp hpk => hall p (List.mem_cons_of_mem q hp) ?_) ?_
      · exact hpk
      · rcases hd with hmem | ⟨p, hp, hpk⟩
        · exact Or.inl (mem_dictInsert_of_ne d q.1 q.2 (k, v) hmem
            (fun h2 => hq h2.symm))
        · rcases List.mem_cons.mp hp with rfl | hp'
          · exact absurd hpk hq
          · exact Or.inr ⟨p, hp', hpk⟩

/-- Membership is preserved by `insertIdentityIfAbsent`. -/
theorem mem_insertIdentityIfAbsent_of_mem (tbl : List IdentityRow)
    (uid ch ext : String) (r : IdentityRow) (hr : r ∈ tbl) :
    r ∈ insertIdentityIfAbsent tbl uid ch ext := by
  rw [insertIdentityIfAbsent]
  split
  · exact hr
  · exact List.mem_append_left _ hr

/-- A row of `insertIdentityIfAbsent tbl uid ch ext` is an old row or the
inserted one. -/
theorem mem_insertIdentityIfAbsent_elim (tbl : List IdentityRow)
    (uid ch ext : String) (r : IdentityRow)
    (hr : r ∈ insertIdentityIfAbsent tbl uid ch ext) :
    r ∈ tbl ∨ r = ⟨uid, ch, ext⟩ := by
  rw [insertIdentityIfAbsent] at hr
  split at hr
  · exact Or.inl hr
  · rcases List.mem_append.mp hr with h | h
    · exact Or.inl h
    · exact Or.inr (by simpa using h)

/-- The fresh `delivery` row ends up in the table processed by
`process_user_created` when the user had no `delivery` binding before. -/
theorem deliveryRow_mem_processUserCreated (tbl : List IdentityRow)
    (ev : UserCreatedInfo)
    (h : ∀ r ∈ tbl, r.user_id = ev.user_id → r.channel ≠ "delivery") :
    (⟨ev.user_id, "delivery", ev.user_id⟩ : IdentityRow) ∈
      processUserCreated tbl ev := by
  have hany : tbl.any
      (fun r => r.user_id == ev.user_id && r.channel == "delivery") = false := by
    rw [List.any_eq_false]
    intro r hr
    simp only [Bool.and_eq_true, beq_iff_eq, not_and]
    exact h r hr
  have h1 : (⟨ev.user_id, "delivery", ev.user_id⟩ : IdentityRow) ∈
      insertIdentityIfAbsent tbl ev.user_id "delivery" ev.user_id := by
    rw [insertIdentityIfAbsent, hany]
    simp
  rw [processUserCreated]
  split
  · exact mem_insertIdentityIfAbsent_of_mem _ _ _ _ _ h1
  · split
    · exact mem_insertIdentityIfAbsent_of_mem _ _ _ _ _ h1
    · exact h1

/-- Every row of the processed table is an old row, the `delivery` row, or
a `whatsapp`/`instagram` row. -/
theorem mem_processUserCreated_elim (tbl : List IdentityRow)
    (ev : UserCreatedInfo) (r : IdentityRow)
    (hr : r ∈ processUserCreated tbl ev) :
    r ∈ tbl ∨ r = ⟨ev.user_id, "delivery", ev.user_id⟩ ∨
      r.channel = "whatsapp" ∨ r.channel = "instagram" := by
  rw [processUserCreated] at hr
  have base : ∀ r' : IdentityRow,
      r' ∈ insertIdentityIfAbsent tbl ev.user_id "delivery" ev.user_id →
      r' ∈ tbl ∨ r' = ⟨ev.user_id, "delivery", ev.user_id⟩ :=
    fun r' h' => mem_insertIdentityIfAbsent_elim _ _ _ _ _ h'
  split at hr
  · rcases mem_insertIdentityIfAbsent_elim _ _ _ _ _ hr with h1 | h1
    · rcases base r h1 with h2 | h2
      · exact Or.inl h2
      · exact Or.inr (Or.inl h2)
    · subst h1
      exact Or.inr (Or.inr (Or.inl rfl))
  · split at hr
    · rcases mem_insertIdentityIfAbsent_elim _ _ _ _ _ hr with h1 | h1
      · rcases base r h1 with h2 | h2
        · exact Or.inl h2
        · exact Or.inr (Or.inl h2)
      · subst h1
        exact Or.inr (Or.inr (Or.inr rfl))
    · rcases base r hr with h2 | h2
      · exact Or.inl h2
      · exact Or.inr (Or.inl h2)

/-- Claim C9 counterexample: on the empty `user_identities` table (a fresh
deployment, before any user-created event is consumed), `get_identities`
returns the empty mapping for user `u1`, which does not contain the entry
`("delivery", "u1")` the claim demands for every user id. -/
theorem get_identities_delivery_counterexample :
    getUserIdentities [] "u1" = [] ∧
      ("delivery", "u1") ∉ getUserIdentities [] "u1" := by
  refine ⟨rfl, ?_⟩
  intro h
  simp [getUserIdentities, dictOfPairs] at h

/-- Claim C9 (amended): `get_identities` has no implicit `delivery` entry;
the entry `{"delivery": user-id}` is present for exactly those users whose
user-created event has been consumed. Precisely: after
`process_user_created` runs for a user with no prior `delivery` binding,
`get_identities(user-id)` contains the entry `("delivery", user-id)`. -/
theorem get_identities_contains_delivery (tbl : List IdentityRow)
    (ev : UserCreatedInfo)
    (h : ∀ r ∈ tbl, r.user_id = ev.user_id → r.channel ≠ "delivery") :
    ("delivery", ev.user_id) ∈
      getUserIdentities (processUserCreated tbl ev) ev.user_id := by
  rw [getUserIdentities]
  apply mem_dictOfPairs_aux
  · intro p hp hpk
    obtain ⟨r, hrf, hrp⟩ := List.mem_map.mp hp
    have hrm := List.mem_filter.mp hrf
    have hruid : r.user_id = ev.user_id := by simpa using hrm.2
    rcases mem_processUserCreated_elim tbl ev r hrm.1 with hold | hdel | hwa | hig
    · exact absurd (by rw [← hrp] at hpk; exact hpk) (h r hold hruid)
    · rw [← hrp]
      rw [hdel]
    · rw [← hrp] at hpk
      simp only at hpk
      rw [hwa] at hpk
      simp at hpk
    · rw [← hrp] at hpk
      simp only at hpk
      rw [hig] at hpk
      simp at hpk
  · refine Or.inr ⟨("delivery", ev.user_id), ?_, rfl⟩
    refine List.mem_map.mpr ⟨⟨ev.user_id, "delivery", ev.user_id⟩, ?_, rfl⟩
    refine List.mem_filter.mpr ⟨deliveryRow_mem_processUserCreated tbl ev h, ?_⟩
    simp

/-- Applying the amended C9 theorem to a fresh table and a concrete
user-created event. -/
theorem get_identities_contains_delivery_witness :
    ("delivery", "u1") ∈
      getUserIdentities (processUserCreated [] ⟨"u1", "alice"⟩) "u1" :=
  get_identities_contains_delivery [] ⟨"u1", "alice"⟩ (by simp)

/-- Message status values stored on a `chat_history.messages` row. -/
inductive MsgStatus where
  | sent : MsgStatus
  | delivered : MsgStatus
  | read : MsgStatus
deriving DecidableEq, Repr

/-- The order SENT < DELIVERED < READ as a numeric rank. -/
def MsgStatus.rank : MsgStatus → Nat
  | .sent => 0
  | .delivered => 1
  | .read => 2

/-- A `chat_history.messages` row, restricted to the columns the status
processor touches. -/
structure MessageRow where
  conversation_id : String
  sequence_number : Nat
  status : MsgStatus
deriving DecidableEq, Repr

/-- The fields of a `MessageStatusEventProto` that `process_event` reads. -/
structure StatusEvent where
  message_id : String
  conversation_id : String
  sequence_number : Nat
  user_id : String
  sender_id : String
  status : MsgStatus
  timestamp : String
deriving DecidableEq, Repr

/-- A `STATUS_UPDATE` notification published on the sender's pub/sub
channel. -/
structure StatusNotification where
  channel : String
  conversation_id : String
  message_id : String
  status : MsgStatus
  read_by : String
  timestamp : String
deriving DecidableEq, Repr

/-- Embedding of the status processor `process_event` (status-service
main.py lines 23-63): `UPDATE chat_history.messages SET status = %s WHERE
conversation_id = %s AND sequence_number = %s` — an unconditional
overwrite — then, when `sender_id != user_id`, a `STATUS_UPDATE`
notification published on `user:<sender_id>`. -/
def processStatusEvent (tbl : List MessageRow) (ev : StatusEvent) :
    List MessageRow × Option StatusNotification :=
  let tbl' := tbl.map (fun r =>
    if r.conversation_id == ev.conversation_id &&
        r.sequence_number == ev.sequence_number then
      { r with status := ev.status }
    else r)
  let notif := if ev.sender_id != ev.user_id then
      some { channel := "user:" ++ ev.sender_id,
             conversation_id := ev.conversation_id,
             message_id := ev.message_id,
             status := ev.status,
             read_by := ev.user_id,
             timestamp := ev.timestamp }
    else none
  (tbl', notif)

/-- Claim C5 counterexample: the stored status is not monotone and READ is
not terminal. A row already at READ that processes a (redelivered or
reordered) DELIVERED event is lowered back to DELIVERED: the update is a
blind overwrite, not a MAX under SENT < DELIVERED < READ. -/
theorem status_update_lowers_counterexample :
    (processStatusEvent [⟨"c", 1, .read⟩]
        ⟨"m1", "c", 1, "bob", "alice", .delivered, "t1"⟩).1 =
      [⟨"c", 1, .delivered⟩] ∧
    MsgStatus.rank .delivered < MsgStatus.rank .read := by
  constructor
  · rfl
  · decide

/-- Claim C5 (amended): the status processor's update is an unconditional
overwrite of the matching row: after processing any nonempty sequence of
status events addressing a row, the stored status equals the status of the
last event — so the trajectory of stored statuses is exactly the sequence
of event statuses, monotone when (and only when) events arrive in
non-decreasing status order, which the conversation-keyed topic provides
only for in-order delivery. -/
theorem status_update_is_overwrite (r : MessageRow) (evs : List StatusEvent)
    (hne : evs ≠ [])
    (hmatch : ∀ ev ∈ evs, ev.conversation_id = r.conversation_id ∧
      ev.sequence_number = r.sequence_number) :
    (evs.foldl (fun t ev => (processStatusEvent t ev).1) [r]) =
      [{ r with status := (evs.getLast hne).status }] := by
  induction evs generalizing r with
  | nil => exact absurd rfl hne
  | cons ev evs ih =>
    have hm := hmatch ev (List.mem_cons_self ev evs)
    have hstep : (processStatusEvent [r] ev).1 =
        [{ r with status := ev.status }] := by
      rw [processStatusEvent]
      simp [hm.1, hm.2]
    simp only [List.foldl_cons, hstep]
    cases evs with
    | nil =>
      simp [List.getLast]
    | cons ev2 evs2 =>
      have hmatch' : ∀ e ∈ ev2 :: evs2,
          e.conversation_id = ({ r with status := ev.status } : MessageRow).conversation_id ∧
          e.sequence_number = ({ r with status := ev.status } : MessageRow).sequence_number := by
        intro e he
        exact hmatch e (List.mem_cons_of_mem ev he)
      have := ih (r := { r with status := ev.status })
        (by simp) hmatch'
      rw [this]
      congr 1

/-- Applying the amended C5 theorem to the in-order DELIVERED-then-READ
receipt sequence for one row. -/
theorem status_update_is_overwrite_witness :
    ([⟨"e1", "c", 1, "bob", "alice", MsgStatus.delivered, "t1"⟩,
      ⟨"e2", "c", 1, "bob", "alice", MsgStatus.read, "t2"⟩].foldl
        (fun t ev => (processStatusEvent t ev).1) [⟨"c", 1, .sent⟩]) =
      [⟨"c", 1, .read⟩] := by
  have h := status_update_is_overwrite ⟨"c", 1, .sent⟩
    [⟨"e1", "c", 1, "bob", "alice", MsgStatus.delivered, "t1"⟩,
     ⟨"e2", "c", 1, "bob", "alice", MsgStatus.read, "t2"⟩]
    (by simp) (by intro ev hev; fin_cases hev <;> exact ⟨rfl, rfl⟩)
  simpa using h

/-- One message consumed by the ingestion worker: its bus offset, its
message id, and whether any of its processing steps (sequence RPC,
message-log write, publish to the persisted topic) raises. -/
structure SubmitMsg where
  offset : Nat
  message_id : String
  stepRaises : Bool
deriving DecidableEq, Repr

/-- Appending to `deque(maxlen=10000)`: the oldest entries are evicted from
the left once the capacity is reached. -/
def pushDedupCache (cache : List String) (mid : String) : List String :=
  let c := cache ++ [mid]
  if c.length > 10000 then c.drop (c.length - 10000) else c

/-- One iteration of the ingestion loop (ingestion-service main.py lines
39-77 together with `ConsumerWrapper.consume`, kafka_client.py lines
115-137). The loop body catches every exception itself (`except Exception:
logger.error(...)`) and falls through, and the dedup hit does `continue`;
in both cases control returns to the generator, which resumes after its
`yield` and runs `self.consumer.commit()`. Hence the offset is committed
whether the body skipped, succeeded, or raised; only the dedup-cache append
is skipped on a raise (it happens after `save_message`). State:
(committed offsets, dedup cache). -/
def ingestionStep (st : List Nat × List String) (m : SubmitMsg) :
    List Nat × List String :=
  if m.message_id ∈ st.2 then (st.1 ++ [m.offset], st.2)
  else if m.stepRaises then (st.1 ++ [m.offset], st.2)
  else (st.1 ++ [m.offset], pushDedupCache st.2 m.message_id)

/-- The ingestion worker's run loop over a finite list of consumed
messages, started with an empty dedup cache. -/
def ingestionRun (msgs : List SubmitMsg) : List Nat × List String :=
  msgs.foldl ingestionStep ([], [])

/-- Claim C3 counterexample: a message whose processing raises still has
its offset committed — the worker swallows the exception and the consumer
wrapper commits when the generator resumes — so the bus does not redeliver
it. -/
theorem ingestion_commit_on_failure_counterexample :
    (ingestionRun [⟨0, "m1", true⟩]).1 = [0] ∧ 0 ∈ (ingestionRun [⟨0, "m1", true⟩]).1 := by
  constructor
  · rfl
  · simp [ingestionRun, ingestionStep, List.foldl]

/-- Claim C3 (amended): the ingestion worker commits the offset of every
consumed message, including those whose processing raised (the error is
only logged), so failed messages are not redelivered. -/
theorem ingestion_commits_every_offset (msgs : List SubmitMsg) :
    (ingestionRun msgs).1 = msgs.map (·.offset) := by
  rw [ingestionRun]
  have haux : ∀ (ms : List SubmitMsg) (acc : List Nat) (cache : List String),
      (ms.foldl ingestionStep (acc, cache)).1 = acc ++ ms.map (·.offset) := by
    intro ms
    induction ms with
    | nil => intro acc cache; simp
    | cons m ms ih =>
      intro acc cache
      simp only [List.foldl_cons, List.map_cons]
      rw [ingestionStep]
      by_cases h1 : m.message_id ∈ cache
      · simp only [h1, if_true]
        rw [ih]
        simp
      · simp only [h1, if_false]
        by_cases h2 : m.stepRaises
        · simp only [h2, if_true]
          rw [ih]
          simp
        · simp only [h2]
          simp only [Bool.false_eq_true, if_false]
          rw [ih]
          simp
  simpa using haux msgs [] []

mutual
/-- Python's JSON-serializable value domain, used for the attachments bag
`Dict[str, Any]`: null, booleans, arbitrary-precision integers, strings,
arrays and string-keyed objects, exactly the values `json.dumps` and
`json.loads` exchange. Python floats are floating-point values and lie
outside this embedding; Python tuples serialize as JSON arrays and are
returned as lists, so at the JSON value level they are the same arrays. -/
inductive Json where
  | null : Json
  | bool : Bool → Json
  | num : Int → Json
  | str : String → Json
  | arr : JsonArr → Json
  | obj : JsonObj → Json
deriving DecidableEq, Repr

inductive JsonArr where
  | nil : JsonArr
  | cons : Json → JsonArr → JsonArr
deriving DecidableEq, Repr

inductive JsonObj where
  | nil : JsonObj
  | cons : String → Json → JsonObj → JsonObj
deriving DecidableEq, Repr
end

/-- The pydantic `MessageSentEvent` (common/schemas/events.py lines 7-20).
The attachments bag `Optional[Dict[str, Any]]` is modelled as an optional
string-keyed JSON object whose values range over the full JSON value
domain (`Json` above), e.g. the repository's
`{"file_id": ..., "file_name": ..., "size": <int>}` bags. -/
structure MessageSentEvent where
  message_id : String
  conversation_id : String
  sender_id : String
  timestamp : String
  message_type : String
  content : String
  attachments : Option JsonObj := none
  status : String
  sequence_number : Option Int := none
  target_channels : List String := ["delivery"]
deriving DecidableEq, Repr

/-- The pydantic `DeliveryJobEvent` (common/schemas/events.py lines 23-29). -/
structure DeliveryJobEvent where
  job_id : String
  message_id : String
  conversation_id : String
  recipient_id : String
  channel : String
  payload : MessageSentEvent
deriving DecidableEq, Repr

/-- The `PushNotificationEvent` fields the delivery worker computes
deterministically. `notification_id` (a random UUIDv4) and `timestamp`
(wall clock) are nondeterministic inputs and are not modelled. -/
structure PushNotificationEvent where
  user_id : String
  title : String
  body : String
  data : List (String × String)
deriving DecidableEq, Repr

/-- The push notification event built by `process_delivery_job`
(delivery-worker main.py lines 82-89): title from the sender, body the
first 100 characters of the content or `"Novo arquivo"` when the content is
empty, data bag with the conversation and message ids. -/
def buildPushEvent (job : DeliveryJobEvent) : PushNotificationEvent :=
  { user_id := job.recipient_id,
    title := "Nova mensagem de " ++ job.payload.sender_id,
    body := if job.payload.content = "" then "Novo arquivo"
            else job.payload.content.take 100,
    data := [("conversation_id", job.conversation_id),
             ("message_id", job.message_id)] }

/-- The nondeterministic outcomes of one delivery job's I/O: does the
Scylla inbox INSERT raise, does the Redis PUBLISH raise, how many
subscribers does the PUBLISH report, and does the push-topic send raise. -/
structure JobEnv where
  inboxFails : Bool
  publishFails : Bool
  subscribers : Nat
  pushFails : Bool
deriving DecidableEq, Repr

/-- Embedding of `process_delivery_job` (delivery-worker main.py lines
33-101). The inner `try` around the inbox INSERT re-raises; the Redis
publish and the push-topic send sit inside the outer `try`, whose handler
logs and then also re-raises (`raise e`). So every failing step makes the
callback raise. On success the result carries the optionally published
push event with its partition key (`key = push_event.user_id`, the
recipient); the push is attempted exactly when the subscriber count is 0. -/
def processDeliveryJob (env : JobEnv) (job : DeliveryJobEvent) :
    Except Unit (Option (String × PushNotificationEvent)) :=
  if env.inboxFails then .error ()
  else if env.publishFails then .error ()
  else if env.subscribers > 0 then .ok none
  else if env.pushFails then .error ()
  else .ok (some (job.recipient_id, buildPushEvent job))

/-- Embedding of `AsyncConsumerWrapper.consume` (kafka_client.py lines
169-194) driving `process_delivery_job`: the offset of a job is committed
exactly when the callback did not raise; on a raise the error is logged and
the commit is skipped. -/
def asyncConsumeDelivery (jobs : List (Nat × JobEnv × DeliveryJobEvent)) :
    List Nat :=
  (jobs.filter (fun j => (processDeliveryJob j.2.1 j.2.2).isOk)).map (·.1)

/-- A concrete delivery job used in the concrete counterexamples and
witnesses below; its payload has empty content. -/
def sampleDeliveryJob : DeliveryJobEvent :=
  { job_id := "j1", message_id := "m1", conversation_id := "c1",
    recipient_id := "bob", channel := "delivery",
    payload := { message_id := "m1", conversation_id := "c1",
                 sender_id := "alice", timestamp := "t1",
                 message_type := "file", content := "",
                 status := "SENT" } }

/-- Claim C7 counterexample: a failure of the Redis pub/sub publish aborts
the job — `process_delivery_job` re-raises, so the offset is not committed
— contradicting the claim that publish failures are only logged and the
offset still committed. -/
theorem delivery_publish_failure_aborts_counterexample :
    processDeliveryJob ⟨false, true, 0, false⟩ sampleDeliveryJob = .error () ∧
      asyncConsumeDelivery [(5, ⟨false, true, 0, false⟩, sampleDeliveryJob)] = [] ∧
      5 ∉ asyncConsumeDelivery [(5, ⟨false, true, 0, false⟩, sampleDeliveryJob)] := by
  refine ⟨rfl, rfl, by decide⟩

/-- Claim C7 (amended): a delivery job's offset is committed exactly when
none of its steps raised: an inbox-write failure aborts the job as claimed,
but so do a pub/sub publish failure and a push-send failure — the worker
re-raises them and the consumer skips the commit, so those jobs are also
redelivered. -/
theorem delivery_offset_committed_iff (off : Nat) (env : JobEnv)
    (job : DeliveryJobEvent) :
    off ∈ asyncConsumeDelivery [(off, env, job)] ↔
      (env.inboxFails = false ∧ env.publishFails = false ∧
        (env.subscribers = 0 → env.pushFails = false)) := by
  obtain ⟨ib, pb, subs, pf⟩ := env
  by_cases hs : subs = 0
  · subst hs
    cases ib <;> cases pb <;> cases pf <;>
      simp [asyncConsumeDelivery, processDeliveryJob, List.filter, Except.isOk, Except.toBool]
  · have hpos : 0 < subs := Nat.pos_of_ne_zero hs
    cases ib <;> cases pb <;> cases pf <;>
      simp [asyncConsumeDelivery, processDeliveryJob, List.filter, Except.isOk, Except.toBool,
        hpos, hs]

/-- Claim C8 counterexample: for an empty-content message the push body is
the literal `"Novo arquivo"`, not `"New file"` as the claim states. -/
theorem delivery_push_body_counterexample :
    (buildPushEvent sampleDeliveryJob).body = "Novo arquivo" ∧
      (buildPushEvent sampleDeliveryJob).body ≠ "New file" ∧
      processDeliveryJob ⟨false, false, 0, false⟩ sampleDeliveryJob =
        .ok (some ("bob", buildPushEvent sampleDeliveryJob)) := by
  refine ⟨rfl, ?_, rfl⟩
  decide

/-- Claim C8 (amended): when every step succeeds, a subscriber count of 0
publishes exactly one push event keyed by the recipient, whose body is the
first 100 characters of the content or `"Novo arquivo"` when the content is
empty, and whose data bag carries the conversation and message ids; a
positive subscriber count publishes no push event. -/
theorem delivery_push_fallback (env : JobEnv) (job : DeliveryJobEvent)
    (h1 : env.inboxFails = false) (h2 : env.publishFails = false)
    (h3 : env.pushFails = false) :
    processDeliveryJob env job =
      if env.subscribers = 0 then
        .ok (some (job.recipient_id,
          { user_id := job.recipient_id,
            title := "Nova mensagem de " ++ job.payload.sender_id,
            body := if job.payload.content = "" then "Novo arquivo"
                    else job.payload.content.take 100,
            data := [("conversation_id", job.conversation_id),
                     ("message_id", job.message_id)] }))
      else .ok none := by
  rw [processDeliveryJob, h1, h2, h3]
  rcases Nat.eq_zero_or_pos env.subscribers with hs | hs
  · rw [hs]
    simp [buildPushEvent]
  · have hnz : ¬ env.subscribers = 0 := Nat.pos_iff_ne_zero.mp hs
    simp [hs, hnz]

/-- Applying the amended C8 theorem to a concrete offline recipient
(subscriber count 0) with empty content. -/
theorem delivery_push_fallback_witness :
    processDeliveryJob ⟨false, false, 0, false⟩ sampleDeliveryJob =
      .ok (some ("bob",
        { user_id := "bob", title := "Nova mensagem de alice",
          body := "Novo arquivo",
          data := [("conversation_id", "c1"), ("message_id", "m1")] })) := by
  have h := delivery_push_fallback ⟨false, false, 0, false⟩ sampleDeliveryJob
    rfl rfl rfl
  simpa [sampleDeliveryJob] using h

/-- Left rotation of a 32-bit word. -/
def rotl32 (n x : Nat) : Nat := ((x <<< n) ||| (x >>> (32 - n))) % 4294967296

/-- The SHA-1 round function `f_t`. -/
def sha1F (t b c d : Nat) : Nat :=
  if t < 20 then (b &&& c) ||| ((b ^^^ 4294967295) &&& d)
  else if t < 40 then b ^^^ c ^^^ d
  else if t < 60 then (b &&& c) ||| (b &&& d) ||| (c &&& d)
  else b ^^^ c ^^^ d

/-- The SHA-1 round constants `K_t`. -/
def sha1K (t : Nat) : Nat :=
  if t < 20 then 1518500249
  else if t < 40 then 1859775393
  else if t < 60 then 2400959708
  else 3395469782

/-- The 80-word SHA-1 message schedule of one 16-word block. -/
def sha1Schedule (block : List Nat) : List Nat :=
  (List.range 80).foldl (fun ws t =>
    if t < 16 then ws ++ [block.getD t 0]
    else ws ++ [rotl32 1 ((ws.getD (t - 3) 0) ^^^ (ws.getD (t - 8) 0) ^^^
      (ws.getD (t - 14) 0) ^^^ (ws.getD (t - 16) 0))]) []

/-- One SHA-1 block compression of the five-word chaining state. -/
def sha1Compress (h : Nat × Nat × Nat × Nat × Nat) (block : List Nat) :
    Nat × Nat × Nat × Nat × Nat :=
  let ws := sha1Schedule block
  let st := (List.range 80).foldl (fun st t =>
    let tmp := (rotl32 5 st.1 + sha1F t st.2.1 st.2.2.1 st.2.2.2.1 +
      st.2.2.2.2 + sha1K t + ws.getD t 0) % 4294967296
    (tmp, st.1, rotl32 30 st.2.1, st.2.2.1, st.2.2.2.1)) h
  ((h.1 + st.1) % 4294967296,
   (h.2.1 + st.2.1) % 4294967296,
   (h.2.2.1 + st.2.2.1) % 4294967296,
   (h.2.2.2.1 + st.2.2.2.1) % 4294967296,
   (h.2.2.2.2 + st.2.2.2.2) % 4294967296)

/-- Fuel-bounded chunking helper; the fuel is the list length, enough for
any positive chunk size. -/
def chunksAux (n : Nat) : Nat → List Nat → List (List Nat)
  | 0, _ => []
  | _, [] => []
  | fuel + 1, l => l.take n :: chunksAux n fuel (l.drop n)

/-- A list split into chunks of `n` elements. -/
def chunks (n : Nat) (l : List Nat) : List (List Nat) := chunksAux n l.length l

/-- Big-endian 32-bit words from bytes. -/
def bytesToWordsBE (l : List Nat) : List Nat :=
  (chunks 4 l).map (fun bs => bs.foldl (fun a b => a * 256 + b) 0)

/-- Big-endian bytes of a 32-bit word. -/
def word32ToBytesBE (w : Nat) : List Nat :=
  [w / 16777216 % 256, w / 65536 % 256, w / 256 % 256, w % 256]

/-- SHA-1 padding: the `0x80` byte, zeros to 56 mod 64, and the bit length
as eight big-endian bytes. -/
def sha1Pad (msg : List Nat) : List Nat :=
  let bitLen := msg.length * 8
  let k := (119 - msg.length % 64) % 64
  msg ++ 128 :: List.replicate k 0 ++
    (List.range 8).map (fun i => (bitLen >>> (8 * (7 - i))) % 256)

/-- SHA-1 of a byte list, as 20 bytes. -/
def sha1 (msg : List Nat) : List Nat :=
  let blocks := (chunks 64 (sha1Pad msg)).map bytesToWordsBE
  let h := blocks.foldl sha1Compress
    (1732584193, 4023233417, 2562383102, 271733878, 3285377520)
  ([h.1, h.2.1, h.2.2.1, h.2.2.2.1, h.2.2.2.2].map word32ToBytesBE).flatten

/-- UTF-8 encoding of one character. -/
def utf8Encode (c : Char) : List Nat :=
  let n := c.toNat
  if n < 128 then [n]
  else if n < 2048 then [192 + n / 64, 128 + n % 64]
  else if n < 65536 then [224 + n / 4096, 128 + n / 64 % 64, 128 + n % 64]
  else [240 + n / 262144, 128 + n / 4096 % 64, 128 + n / 64 % 64, 128 + n % 64]

/-- UTF-8 bytes of a string. -/
def strUtf8Bytes (s : String) : List Nat := (s.toList.map utf8Encode).flatten

/-- The bytes of `uuid.NAMESPACE_DNS`
(6ba7b810-9dad-11d1-80b4-00c04fd430c8). -/
def namespaceDNS : List Nat :=
  [107, 167, 184, 16, 157, 173, 17, 209, 128, 180, 0, 192, 79, 212, 48, 200]

/-- The 16 bytes of a version-5 UUID: the truncated SHA-1 of namespace and
name with the version and variant bits forced. -/
def uuid5Bytes (ns name : List Nat) : List Nat :=
  let d := (sha1 (ns ++ name)).take 16
  d.enum.map (fun p =>
    if p.1 = 6 then p.2 % 16 + 80
    else if p.1 = 8 then p.2 % 64 + 128
    else p.2)

/-- Lowercase hexadecimal digit. -/
def hexDigitChar (n : Nat) : Char :=
  if n < 10 then Char.ofNat (48 + n) else Char.ofNat (87 + n)

/-- Two lowercase hex digits of a byte. -/
def byteToHex (b : Nat) : List Char := [hexDigitChar (b / 16), hexDigitChar (b % 16)]

/-- Canonical 8-4-4-4-12 text form of 16 UUID bytes, as `str(uuid)`
produces it. -/
def uuidFormat (b : List Nat) : String :=
  let hx := fun (l : List Nat) => (l.map byteToHex).flatten
  String.mk (hx (b.take 4) ++ '-' :: hx ((b.drop 4).take 2) ++ '-' ::
    hx ((b.drop 6).take 2) ++ '-' :: hx ((b.drop 8).take 2) ++ '-' ::
    hx (b.drop 10))

/-- Embedding of `str(uuid.uuid5(uuid.NAMESPACE_DNS, name))` as the fan-out dispatcher
computes job ids (fanout-service main.py line 97). -/
def uuid5Dns (name : String) : String :=
  uuidFormat (uuid5Bytes namespaceDNS (strUtf8Bytes name))

/-- The opening brace character of a JSON object. -/
def braceOpen : Char := Char.ofNat 123

/-- The closing brace character of a JSON object. -/
def braceClose : Char := Char.ofNat 125

/-- JSON string escaping as `json.dumps` performs it for the quote and
backslash characters. Python additionally escapes control and non-ASCII
characters; those escapes are omitted because the parser below accepts the
raw characters, so the dumps-then-loads round trip the repository relies
on is unaffected. -/
def escChars (l : List Char) : List Char :=
  (l.map (fun c => if c = '\\' ∨ c = '"' then ['\\', c] else [c])).flatten

/-- Decimal digit character. -/
def digitChar : Nat → Char
  | 0 => '0' | 1 => '1' | 2 => '2' | 3 => '3' | 4 => '4'
  | 5 => '5' | 6 => '6' | 7 => '7' | 8 => '8' | _ => '9'

/-- Fuel-bounded most-significant-first decimal digits of a natural
number (the fuel only needs to be at least the number itself). -/
def natDigitsAux : Nat → Nat → List Char
  | 0, _ => []
  | _, 0 => []
  | fuel + 1, n => natDigitsAux fuel (n / 10) ++ [digitChar (n % 10)]

/-- Decimal digits of a natural number, as Python prints it. -/
def natChars (n : Nat) : List Char := if n = 0 then ['0'] else natDigitsAux n n

/-- Decimal representation of a Python integer as `json.dumps` emits it:
an optional minus sign followed by the digits. -/
def intChars (n : Int) : List Char :=
  if n < 0 then '-' :: natChars (-n).toNat else natChars n.toNat

mutual
/-- Serialization of a JSON value exactly as `json.dumps` with its default
separators renders it: `null`/`true`/`false` keywords, decimal integers,
quoted escaped strings, and bracketed sequences joined by a comma and a
space, with a colon and a space inside object entries. -/
def jsonChars : Json → List Char
  | .null => 'n' :: 'u' :: 'l' :: 'l' :: []
  | .bool true => 't' :: 'r' :: 'u' :: 'e' :: []
  | .bool false => 'f' :: 'a' :: 'l' :: 's' :: 'e' :: []
  | .num n => intChars n
  | .str s => '"' :: escChars s.toList ++ ['"']
  | .arr a => '[' :: jsonArrChars a ++ [']']
  | .obj o => braceOpen :: jsonObjChars o ++ [braceClose]

def jsonArrChars : JsonArr → List Char
  | .nil => []
  | .cons v .nil => jsonChars v
  | .cons v tl => jsonChars v ++ ',' :: ' ' :: jsonArrChars tl

def jsonObjChars : JsonObj → List Char
  | .nil => []
  | .cons k v .nil => '"' :: escChars k.toList ++ '"' :: ':' :: ' ' :: jsonChars v
  | .cons k v tl => '"' :: escChars k.toList ++ '"' :: ':' :: ' ' :: jsonChars v ++
      ',' :: ' ' :: jsonObjChars tl
end

/-- Embedding of `json.dumps` on an attachments dict. -/
def jsonDumpsObj (o : JsonObj) : String := String.mk (jsonChars (.obj o))


/-- Decimal digit test on a character. -/
def isDigitChar (c : Char) : Bool := 48 ≤ c.toNat && c.toNat ≤ 57

/-- Numeric value of a decimal digit character. -/
def digitVal (c : Char) : Nat := c.toNat - 48

/-- Greedy decimal digit parser, folding the digits onto an accumulator. -/
def parseDigits (acc : Nat) : List Char → Nat × List Char
  | [] => (acc, [])
  | c :: rest =>
    if isDigitChar c then parseDigits (acc * 10 + digitVal c) rest
    else (acc, c :: rest)

/-- Parser for a JSON integer: an optional minus sign and then digits. -/
def parseNumber (l : List Char) : Option (Int × List Char) :=
  match l with
  | [] => none
  | c :: rest =>
    if c = '-' then
      match rest with
      | [] => none
      | d :: rest2 =>
        if isDigitChar d then
          let p := parseDigits 0 (d :: rest2)
          some (-(p.1 : Int), p.2)
        else none
    else if isDigitChar c then
      let p := parseDigits 0 (c :: rest)
      some ((p.1 : Int), p.2)
    else none

/-- Parser for a JSON string body after its opening quote, undoing
`escChars`; returns the string and the remaining characters. -/
def parseStringBody (acc : List Char) : List Char → Option (String × List Char)
  | [] => none
  | c :: rest =>
    if c = '"' then some (String.mk acc, rest)
    else if c = '\\' then
      match rest with
      | [] => none
      | d :: rest2 =>
        if d = '\\' ∨ d = '"' then parseStringBody (acc ++ [d]) rest2 else none
    else parseStringBody (acc ++ [c]) rest

/-- One step of the JSON value parser, taking the parsers for array and
object bodies as arguments: dispatch on the first character exactly as the
grammar of `jsonChars` demands. -/
def parseJsonStep (pa : List Char → Option (JsonArr × List Char))
    (po : List Char → Option (JsonObj × List Char))
    (l : List Char) : Option (Json × List Char) :=
  match l with
  | [] => none
  | c :: rest =>
    if c = 'n' then
      match rest with
      | 'u' :: 'l' :: 'l' :: rest2 => some (.null, rest2)
      | _ => none
    else if c = 't' then
      match rest with
      | 'r' :: 'u' :: 'e' :: rest2 => some (.bool true, rest2)
      | _ => none
    else if c = 'f' then
      match rest with
      | 'a' :: 'l' :: 's' :: 'e' :: rest2 => some (.bool false, rest2)
      | _ => none
    else if c = '"' then
      (parseStringBody [] rest).map (fun p => (.str p.1, p.2))
    else if c = '[' then
      match rest with
      | [] => none
      | d :: rest2 =>
        if d = ']' then some (.arr .nil, rest2)
        else
          match pa rest with
          | some (a, rest3) => some (.arr a, rest3)
          | none => none
    else if c = braceOpen then
      match rest with
      | [] => none
      | d :: rest2 =>
        if d = braceClose then some (.obj .nil, rest2)
        else
          match po rest with
          | some (o, rest3) => some (.obj o, rest3)
          | none => none
    else
      (parseNumber (c :: rest)).map (fun p => (.num p.1, p.2))

/-- One step of the parser for a nonempty array body: one value, then
either the closing bracket or a comma, a space and the rest. -/
def parseArrStep (pj : List Char → Option (Json × List Char))
    (pa : List Char → Option (JsonArr × List Char))
    (l : List Char) : Option (JsonArr × List Char) :=
  match pj l with
  | none => none
  | some (v, rest) =>
    match rest with
    | ']' :: rest2 => some (.cons v .nil, rest2)
    | ',' :: ' ' :: rest2 =>
      match pa rest2 with
      | some (tl, rest3) => some (.cons v tl, rest3)
      | none => none
    | _ => none

/-- One step of the parser for a nonempty object body: a quoted key, a
colon and a space, a value, then either the closing brace or a comma, a
space and the rest. -/
def parseObjStep (pj : List Char → Option (Json × List Char))
    (po : List Char → Option (JsonObj × List Char))
    (l : List Char) : Option (JsonObj × List Char) :=
  match l with
  | '"' :: rest =>
    match parseStringBody [] rest with
    | some (k, rest1) =>
      match rest1 with
      | ':' :: ' ' :: rest2 =>
        match pj rest2 with
        | some (v, rest3) =>
          match rest3 with
          | [] => none
          | c :: rest4 =>
            if c = braceClose then some (.cons k v .nil, rest4)
            else if c = ',' then
              match rest4 with
              | ' ' :: rest5 =>
                match po rest5 with
                | some (tl, rest6) => some (.cons k v tl, rest6)
                | none => none
              | _ => none
            else none
        | none => none
      | _ => none
    | none => none
  | _ => none

/-- The three mutually recursive JSON parsers tied together by a single
recursion on fuel; the real `json.loads` has no fuel, and any fuel at
least `jsonFuel` of the parsed value behaves identically. -/
def parseJsonF : Nat →
    (List Char → Option (Json × List Char)) ×
    (List Char → Option (JsonArr × List Char)) ×
    (List Char → Option (JsonObj × List Char))
  | 0 => (fun _ => none, fun _ => none, fun _ => none)
  | fuel + 1 =>
    let p := parseJsonF fuel
    (parseJsonStep p.2.1 p.2.2, parseArrStep p.1 p.2.1, parseObjStep p.1 p.2.2)

/-- Parser for one JSON value. -/
def parseJson (fuel : Nat) (l : List Char) : Option (Json × List Char) :=
  (parseJsonF fuel).1 l

/-- Parser for a nonempty JSON array body, closing bracket included. -/
def parseJsonArr (fuel : Nat) (l : List Char) : Option (JsonArr × List Char) :=
  (parseJsonF fuel).2.1 l

/-- Parser for a nonempty JSON object body, closing brace included. -/
def parseJsonObj (fuel : Nat) (l : List Char) : Option (JsonObj × List Char) :=
  (parseJsonF fuel).2.2 l

/-- Unfolding of the value parser at positive fuel. -/
theorem parseJson_succ (fuel : Nat) (l : List Char) :
    parseJson (fuel + 1) l =
      parseJsonStep (parseJsonArr fuel) (parseJsonObj fuel) l := rfl

/-- Unfolding of the array-body parser at positive fuel. -/
theorem parseJsonArr_succ (fuel : Nat) (l : List Char) :
    parseJsonArr (fuel + 1) l =
      parseArrStep (parseJson fuel) (parseJsonArr fuel) l := rfl

/-- Unfolding of the object-body parser at positive fuel. -/
theorem parseJsonObj_succ (fuel : Nat) (l : List Char) :
    parseJsonObj (fuel + 1) l =
      parseObjStep (parseJson fuel) (parseJsonObj fuel) l := rfl

/-- Embedding of `json.loads` on the canonical `json.dumps` output format
(the only strings the repository parses are ones `json.dumps` produced):
parse one value and require the input to be exhausted. -/
def jsonLoads (s : String) : Option Json :=
  match parseJson (2 * s.toList.length + 2) s.toList with
  | some (v, []) => some v
  | _ => none


/-- Digit characters are digits. -/
theorem isDigitChar_digitChar (d : Nat) (h : d < 10) :
    isDigitChar (digitChar d) = true := by
  interval_cases d <;> decide

/-- Digit characters decode to their value. -/
theorem digitVal_digitChar (d : Nat) (h : d < 10) :
    digitVal (digitChar d) = d := by
  interval_cases d <;> decide

/-- Every character the digit serializer emits is a digit. -/
theorem natDigitsAux_digits : ∀ (fuel n : Nat), ∀ c ∈ natDigitsAux fuel n,
    isDigitChar c = true := by
  intro fuel
  induction fuel with
  | zero => intro n c hc; simp [natDigitsAux] at hc
  | succ f ih =>
    intro n c hc
    match n with
    | 0 => simp [natDigitsAux] at hc
    | m + 1 =>
      have heq : natDigitsAux (f + 1) (m + 1) =
          natDigitsAux f ((m + 1) / 10) ++ [digitChar ((m + 1) % 10)] := rfl
      rw [heq] at hc
      rcases List.mem_append.mp hc with h | h
      · exact ih _ c h
      · simp at h
        subst h
        exact isDigitChar_digitChar _ (Nat.mod_lt _ (by omega))

/-- Every character of a serialized natural number is a digit. -/
theorem natChars_digits (n : Nat) : ∀ c ∈ natChars n, isDigitChar c = true := by
  intro c hc
  rw [natChars] at hc
  split at hc
  · simp at hc; subst hc; decide
  · exact natDigitsAux_digits n n c hc

/-- A serialized natural number has at least one digit. -/
theorem natChars_ne_nil (n : Nat) : natChars n ≠ [] := by
  rw [natChars]
  by_cases h : n = 0
  · simp [h]
  · rw [if_neg h]
    match n, h with
    | m + 1, _ =>
      have heq : natDigitsAux (m + 1) (m + 1) =
          natDigitsAux m ((m + 1) / 10) ++ [digitChar ((m + 1) % 10)] := rfl
      rw [heq]
      simp

/-- Folding the emitted digits recovers the number, generalized over the
accumulator. -/
theorem foldl_natDigitsAux : ∀ (fuel n : Nat), n ≤ fuel → ∀ acc : Nat,
    (natDigitsAux fuel n).foldl (fun a c => a * 10 + digitVal c) acc =
      acc * 10 ^ (natDigitsAux fuel n).length + n := by
  intro fuel
  induction fuel with
  | zero =>
    intro n hn acc
    interval_cases n
    simp [natDigitsAux]
  | succ f ih =>
    intro n hn acc
    match n with
    | 0 => simp [natDigitsAux]
    | m + 1 =>
      have heq : natDigitsAux (f + 1) (m + 1) =
          natDigitsAux f ((m + 1) / 10) ++ [digitChar ((m + 1) % 10)] := rfl
      rw [heq, List.foldl_append]
      rw [ih ((m + 1) / 10) (by omega) acc]
      simp only [List.foldl_cons, List.foldl_nil, List.length_append,
        List.length_cons, List.length_nil]
      rw [digitVal_digitChar _ (Nat.mod_lt _ (by omega))]
      calc (acc * 10 ^ (natDigitsAux f ((m + 1) / 10)).length + (m + 1) / 10) * 10 +
            (m + 1) % 10
          = acc * (10 ^ (natDigitsAux f ((m + 1) / 10)).length * 10) +
            ((m + 1) / 10 * 10 + (m + 1) % 10) := by ring
        _ = acc * 10 ^ ((natDigitsAux f ((m + 1) / 10)).length + 1) + (m + 1) := by
            rw [← pow_succ]
            congr 1
            omega

/-- Folding the digits of a serialized natural number yields it back. -/
theorem digitsVal_natChars (n : Nat) :
    (natChars n).foldl (fun a c => a * 10 + digitVal c) 0 = n := by
  rw [natChars]
  by_cases h : n = 0
  · simp [h, digitVal]
  · rw [if_neg h]
    have h2 := foldl_natDigitsAux n n le_rfl 0
    simpa using h2

/-- Suffix condition for greedy number parsing: the characters after a
serialized value must not start with a digit (in the `jsonChars` grammar
they start with a comma, bracket or brace, or the input ends). -/
def SuffixOk (suffix : List Char) : Prop :=
  suffix = [] ∨ ∃ c rest, suffix = c :: rest ∧ isDigitChar c = false

/-- The digit parser consumes exactly an all-digit prefix. -/
theorem parseDigits_append : ∀ (l : List Char),
    (∀ c ∈ l, isDigitChar c = true) → ∀ (suffix : List Char), SuffixOk suffix →
    ∀ acc : Nat, parseDigits acc (l ++ suffix) =
      (l.foldl (fun a c => a * 10 + digitVal c) acc, suffix) := by
  intro l
  induction l with
  | nil =>
    intro _ suffix hs acc
    rcases hs with rfl | ⟨c, rest, rfl, hc⟩
    · simp [parseDigits]
    · simp [parseDigits, hc]
  | cons c l ih =>
    intro hl suffix hs acc
    rw [List.cons_append, parseDigits.eq_def]
    simp only []
    rw [if_pos (hl c (List.mem_cons_self c l))]
    rw [ih (fun d hd => hl d (List.mem_cons_of_mem c hd)) suffix hs]
    simp

/-- A serialized integer starts with a minus sign or a digit. -/
theorem intChars_head (n : Int) :
    ∃ c l, intChars n = c :: l ∧ (c = '-' ∨ isDigitChar c = true) := by
  rw [intChars]
  by_cases h : n < 0
  · rw [if_pos h]
    exact ⟨'-', _, rfl, Or.inl rfl⟩
  · rw [if_neg h]
    obtain ⟨c, l, hcl⟩ := List.exists_cons_of_ne_nil (natChars_ne_nil n.toNat)
    refine ⟨c, l, hcl, Or.inr ?_⟩
    exact natChars_digits _ c (hcl ▸ List.mem_cons_self c l)

/-- The digit parser inverts the natural-number serializer. -/
theorem parseNumber_natChars (m : Nat) (suffix : List Char) (hs : SuffixOk suffix) :
    parseDigits 0 (natChars m ++ suffix) = (m, suffix) := by
  rw [parseDigits_append (natChars m) (natChars_digits m) suffix hs 0]
  rw [digitsVal_natChars]

/-- The number parser inverts the integer serializer. -/
theorem parseNumber_intChars (n : Int) (suffix : List Char) (hs : SuffixOk suffix) :
    parseNumber (intChars n ++ suffix) = some (n, suffix) := by
  by_cases h : n < 0
  · have hform : intChars n = '-' :: natChars (-n).toNat := by
      rw [intChars, if_pos h]
    rw [hform, List.cons_append]
    obtain ⟨c, l, hcl⟩ := List.exists_cons_of_ne_nil (natChars_ne_nil (-n).toNat)
    have hcd : isDigitChar c = true :=
      natChars_digits _ c (hcl ▸ List.mem_cons_self c l)
    rw [parseNumber.eq_def]
    simp only [reduceIte]
    rw [hcl, List.cons_append]
    simp only []
    rw [if_pos hcd]
    rw [← List.cons_append, ← hcl]
    rw [parseNumber_natChars _ _ hs]
    simp only [Option.some.injEq, Prod.mk.injEq]
    constructor
    · have h2 : ((-n).toNat : Int) = -n := Int.toNat_of_nonneg (by omega)
      omega
    · trivial
  · have hform : intChars n = natChars n.toNat := by
      rw [intChars, if_neg h]
    obtain ⟨c, l, hcl⟩ := List.exists_cons_of_ne_nil (natChars_ne_nil n.toNat)
    have hcd : isDigitChar c = true :=
      natChars_digits _ c (hcl ▸ List.mem_cons_self c l)
    have hcm : ¬ c = '-' := by
      intro he
      rw [he] at hcd
      exact absurd hcd (by decide)
    rw [hform, hcl, List.cons_append]
    rw [parseNumber.eq_def]
    simp only []
    rw [if_neg hcm, if_pos hcd]
    rw [← List.cons_append, ← hcl]
    rw [parseNumber_natChars _ _ hs]
    simp only [Option.some.injEq, Prod.mk.injEq]
    constructor
    · have h2 : (n.toNat : Int) = n := Int.toNat_of_nonneg (by omega)
      omega
    · trivial

mutual
/-- Fuel measure of a JSON value: enough parser fuel for its nesting. -/
def jsonFuel : Json → Nat
  | .null | .bool _ | .num _ | .str _ => 1
  | .arr a => jsonArrFuel a + 1
  | .obj o => jsonObjFuel o + 1

def jsonArrFuel : JsonArr → Nat
  | .nil => 1
  | .cons v tl => jsonFuel v + jsonArrFuel tl + 1

def jsonObjFuel : JsonObj → Nat
  | .nil => 1
  | .cons _ v tl => jsonFuel v + jsonObjFuel tl + 1
end

/-- The fuel measure is positive. -/
theorem jsonFuel_pos (v : Json) : 0 < jsonFuel v := by
  cases v <;> simp [jsonFuel]

/-- A serialized JSON value is nonempty. -/
theorem jsonChars_ne_nil (v : Json) : jsonChars v ≠ [] := by
  cases v with
  | null => simp [jsonChars]
  | bool b => cases b <;> simp [jsonChars]
  | num n =>
    obtain ⟨c, l, hcl, _⟩ := intChars_head n
    have hj : jsonChars (.num n) = intChars n := rfl
    rw [hj, hcl]
    simp
  | str s => simp [jsonChars]
  | arr a => simp [jsonChars]
  | obj o => simp [jsonChars]

/-- The head of a serialized number is none of the characters the value
parser dispatches on first. -/
theorem numHead_ne (c : Char) (h : c = '-' ∨ isDigitChar c = true) :
    ¬ c = 'n' ∧ ¬ c = 't' ∧ ¬ c = 'f' ∧ ¬ c = '"' ∧ ¬ c = '[' ∧
      ¬ c = braceOpen := by
  rcases h with rfl | h
  · refine ⟨?_, ?_, ?_, ?_, ?_, ?_⟩ <;> decide
  · refine ⟨?_, ?_, ?_, ?_, ?_, ?_⟩ <;> intro he <;> rw [he] at h <;>
      exact absurd h (by decide)

/-- A serialized JSON value never starts with a closing bracket or a
closing brace. -/
theorem jsonChars_head_ne (v : Json) (c : Char) (t : List Char)
    (h : jsonChars v = c :: t) : ¬ c = ']' ∧ ¬ c = braceClose := by
  cases v with
  | null =>
    have hj : jsonChars .null = 'n' :: 'u' :: 'l' :: 'l' :: [] := rfl
    rw [hj] at h
    obtain ⟨rfl, -⟩ := List.cons.inj h
    exact ⟨by decide, by decide⟩
  | bool b =>
    cases b with
    | true =>
      have hj : jsonChars (.bool true) = 't' :: 'r' :: 'u' :: 'e' :: [] := rfl
      rw [hj] at h
      obtain ⟨rfl, -⟩ := List.cons.inj h
      exact ⟨by decide, by decide⟩
    | false =>
      have hj : jsonChars (.bool false) = 'f' :: 'a' :: 'l' :: 's' :: 'e' :: [] := rfl
      rw [hj] at h
      obtain ⟨rfl, -⟩ := List.cons.inj h
      exact ⟨by decide, by decide⟩
  | num n =>
    obtain ⟨c0, l0, hcl, hc0⟩ := intChars_head n
    have hj : jsonChars (.num n) = intChars n := rfl
    rw [hj, hcl] at h
    obtain ⟨rfl, -⟩ := List.cons.inj h
    rcases hc0 with rfl | hd
    · exact ⟨by decide, by decide⟩
    · constructor <;> intro he <;> rw [he] at hd <;> exact absurd hd (by decide)
  | str s =>
    have hj : jsonChars (.str s) = '"' :: escChars s.toList ++ ['"'] := rfl
    rw [hj] at h
    obtain ⟨rfl, -⟩ := List.cons.inj h
    exact ⟨by decide, by decide⟩
  | arr a =>
    have hj : jsonChars (.arr a) = '[' :: jsonArrChars a ++ [']'] := rfl
    rw [hj] at h
    obtain ⟨rfl, -⟩ := List.cons.inj h
    exact ⟨by decide, by decide⟩
  | obj o =>
    have hj : jsonChars (.obj o) = braceOpen :: jsonObjChars o ++ [braceClose] := rfl
    rw [hj] at h
    obtain ⟨rfl, -⟩ := List.cons.inj h
    exact ⟨by decide, by decide⟩

/-- Unescaping undoes escaping: the string-body parser consumes the
escaped characters up to the closing quote and returns the original
string. -/
theorem parseStringBody_escChars (l : List Char) :
    ∀ (acc rest : List Char),
      parseStringBody acc (escChars l ++ '"' :: rest) =
        some (String.mk (acc ++ l), rest) := by
  induction l with
  | nil =>
    intro acc rest
    simp only [escChars, List.map_nil, List.flatten_nil, List.nil_append]
    rw [parseStringBody.eq_def]
    simp
  | cons c l ih =>
    intro acc rest
    by_cases hc : c = '\\' ∨ c = '"'
    · have hesc : escChars (c :: l) = '\\' :: c :: escChars l := by
        simp [escChars, hc]
      rw [hesc, List.cons_append, List.cons_append]
      rw [parseStringBody.eq_def]
      simp only [reduceIte]
      rw [if_pos hc]
      rw [ih (acc ++ [c]) rest]
      simp
    · push_neg at hc
      have hesc : escChars (c :: l) = c :: escChars l := by
        simp [escChars, hc.1, hc.2]
      rw [hesc, List.cons_append]
      rw [parseStringBody.eq_def]
      simp only []
      rw [if_neg hc.2, if_neg hc.1]
      rw [ih (acc ++ [c]) rest]
      simp

/-- Strings survive the `mk`-of-`toList` round trip. -/
theorem strMk_toList (s : String) : String.mk s.toList = s := rfl


mutual
/-- The JSON parser inverts the serializer on every JSON value, for any
sufficient fuel and any non-digit-headed suffix. -/
theorem parseJson_jsonChars : ∀ (v : Json) (fuel : Nat) (suffix : List Char),
    jsonFuel v ≤ fuel → SuffixOk suffix →
    parseJson fuel (jsonChars v ++ suffix) = some (v, suffix)
  | v, 0, _, hf, _ => absurd hf (by have := jsonFuel_pos v; omega)
  | .null, f + 1, suffix, _, _ => by
    have hform : jsonChars .null ++ suffix =
        'n' :: 'u' :: 'l' :: 'l' :: suffix := rfl
    rw [hform, parseJson_succ]
    simp [parseJsonStep]
  | .bool true, f + 1, suffix, _, _ => by
    have hform : jsonChars (.bool true) ++ suffix =
        't' :: 'r' :: 'u' :: 'e' :: suffix := rfl
    rw [hform, parseJson_succ]
    simp [parseJsonStep]
  | .bool false, f + 1, suffix, _, _ => by
    have hform : jsonChars (.bool false) ++ suffix =
        'f' :: 'a' :: 'l' :: 's' :: 'e' :: suffix := rfl
    rw [hform, parseJson_succ]
    simp [parseJsonStep]
  | .str s, f + 1, suffix, _, _ => by
    have hform : jsonChars (.str s) ++ suffix =
        '"' :: (escChars s.toList ++ '"' :: suffix) := by
      have h0 : jsonChars (.str s) = '"' :: escChars s.toList ++ ['"'] := rfl
      rw [h0]
      simp [List.append_assoc]
    rw [hform, parseJson_succ]
    simp [parseJsonStep, parseStringBody_escChars, strMk_toList]
  | .num n, f + 1, suffix, _, hs => by
    obtain ⟨c0, l0, hcl, hc0⟩ := intChars_head n
    obtain ⟨h1, h2, h3, h4, h5, h6⟩ := numHead_ne c0 hc0
    have hj : jsonChars (.num n) = intChars n := rfl
    rw [hj, hcl, List.cons_append, parseJson_succ, parseJsonStep.eq_def]
    simp only []
    rw [if_neg h1, if_neg h2, if_neg h3, if_neg h4, if_neg h5, if_neg h6]
    rw [← List.cons_append, ← hcl]
    rw [parseNumber_intChars n suffix hs]
    rfl
  | .arr .nil, f + 1, suffix, _, _ => by
    have hform : jsonChars (.arr .nil) ++ suffix = '[' :: ']' :: suffix := rfl
    rw [hform, parseJson_succ]
    simp [parseJsonStep]
  | .arr (.cons v tl), f + 1, suffix, hf, _ => by
    have hform : jsonChars (.arr (.cons v tl)) ++ suffix =
        '[' :: (jsonArrChars (.cons v tl) ++ ']' :: suffix) := by
      have h0 : jsonChars (.arr (.cons v tl)) =
          '[' :: jsonArrChars (.cons v tl) ++ [']'] := rfl
      rw [h0]
      simp [List.append_assoc]
    rw [hform]
    obtain ⟨ch, tv, hv⟩ := List.exists_cons_of_ne_nil (jsonChars_ne_nil v)
    have harrhead : ∃ t2, jsonArrChars (.cons v tl) = ch :: t2 := by
      cases tl with
      | nil =>
        refine ⟨tv, ?_⟩
        have h1 : jsonArrChars (.cons v .nil) = jsonChars v := rfl
        rw [h1, hv]
      | cons w tw =>
        refine ⟨tv ++ ',' :: ' ' :: jsonArrChars (.cons w tw), ?_⟩
        have h1 : jsonArrChars (.cons v (.cons w tw)) =
            jsonChars v ++ ',' :: ' ' :: jsonArrChars (.cons w tw) := rfl
        rw [h1, hv]
        simp
    obtain ⟨t2, h2⟩ := harrhead
    have hne := jsonChars_head_ne v ch tv hv
    rw [parseJson_succ, parseJsonStep.eq_def]
    simp only [reduceIte]
    rw [h2, List.cons_append]
    simp only []
    rw [if_neg hne.1]
    rw [← List.cons_append, ← h2]
    have hfuel2 : jsonArrFuel (.cons v tl) ≤ f := by
      have h3 : jsonFuel (.arr (.cons v tl)) = jsonArrFuel (.cons v tl) + 1 := rfl
      omega
    rw [parseJsonArr_jsonArrChars (.cons v tl) f suffix
      (fun hx => JsonArr.noConfusion hx) hfuel2]
    rfl
  | .obj .nil, f + 1, suffix, _, _ => by
    have hform : jsonChars (.obj .nil) ++ suffix =
        braceOpen :: braceClose :: suffix := rfl
    rw [hform, parseJson_succ]
    simp [parseJsonStep, braceOpen, braceClose]
  | .obj (.cons k v tl), f + 1, suffix, hf, _ => by
    have hform : jsonChars (.obj (.cons k v tl)) ++ suffix =
        braceOpen :: (jsonObjChars (.cons k v tl) ++ braceClose :: suffix) := by
      have h0 : jsonChars (.obj (.cons k v tl)) =
          braceOpen :: jsonObjChars (.cons k v tl) ++ [braceClose] := rfl
      rw [h0]
      simp [List.append_assoc]
    rw [hform]
    have hobjhead : ∃ t2, jsonObjChars (.cons k v tl) = '"' :: t2 := by
      cases tl with
      | nil => exact ⟨_, rfl⟩
      | cons k2 v2 tl2 => exact ⟨_, rfl⟩
    obtain ⟨t2, h2⟩ := hobjhead
    rw [parseJson_succ, parseJsonStep.eq_def]
    simp only [reduceIte]
    rw [h2, List.cons_append]
    simp only []
    have hq : ¬ ('"' = braceClose) := by decide
    rw [if_neg hq]
    rw [← List.cons_append, ← h2]
    have hfuel2 : jsonObjFuel (.cons k v tl) ≤ f := by
      have h3 : jsonFuel (.obj (.cons k v tl)) = jsonObjFuel (.cons k v tl) + 1 := rfl
      omega
    rw [parseJsonObj_jsonObjChars (.cons k v tl) f suffix
      (fun hx => JsonObj.noConfusion hx) hfuel2]
    rfl

/-- The array-body parser inverts the array serializer. -/
theorem parseJsonArr_jsonArrChars : ∀ (a : JsonArr) (fuel : Nat) (suffix : List Char),
    a ≠ .nil → jsonArrFuel a ≤ fuel →
    parseJsonArr fuel (jsonArrChars a ++ ']' :: suffix) = some (a, suffix)
  | .nil, _, _, hne, _ => absurd rfl hne
  | .cons v tl, 0, _, _, hf => by
    exfalso
    have h1 : jsonArrFuel (.cons v tl) = jsonFuel v + jsonArrFuel tl + 1 := rfl
    omega
  | .cons v .nil, f + 1, suffix, _, hf => by
    have h0 : jsonArrChars (.cons v .nil) = jsonChars v := rfl
    rw [h0, parseJsonArr_succ, parseArrStep.eq_def]
    have hfv : jsonFuel v ≤ f := by
      have h1 : jsonArrFuel (.cons v .nil) = jsonFuel v + jsonArrFuel .nil + 1 := rfl
      have h2 : jsonArrFuel JsonArr.nil = 1 := rfl
      omega
    rw [parseJson_jsonChars v f (']' :: suffix) hfv
      (Or.inr ⟨']', suffix, rfl, by decide⟩)]
    rfl
  | .cons v (.cons w tw), f + 1, suffix, _, hf => by
    have h0 : jsonArrChars (.cons v (.cons w tw)) ++ ']' :: suffix =
        jsonChars v ++ (',' :: ' ' :: (jsonArrChars (.cons w tw) ++ ']' :: suffix)) := by
      have h1 : jsonArrChars (.cons v (.cons w tw)) =
          jsonChars v ++ ',' :: ' ' :: jsonArrChars (.cons w tw) := rfl
      rw [h1]
      simp [List.append_assoc]
    rw [h0, parseJsonArr_succ, parseArrStep.eq_def]
    have hfv : jsonFuel v ≤ f := by
      have h1 : jsonArrFuel (.cons v (.cons w tw)) =
          jsonFuel v + jsonArrFuel (.cons w tw) + 1 := rfl
      omega
    rw [parseJson_jsonChars v f _ hfv (Or.inr ⟨',', _, rfl, by decide⟩)]
    simp only []
    have hfw : jsonArrFuel (.cons w tw) ≤ f := by
      have h1 : jsonArrFuel (.cons v (.cons w tw)) =
          jsonFuel v + jsonArrFuel (.cons w tw) + 1 := rfl
      have h2 := jsonFuel_pos v
      omega
    rw [parseJsonArr_jsonArrChars (.cons w tw) f suffix
      (fun hx => JsonArr.noConfusion hx) hfw]

/-- The object-body parser inverts the object serializer. -/
theorem parseJsonObj_jsonObjChars : ∀ (o : JsonObj) (fuel : Nat) (suffix : List Char),
    o ≠ .nil → jsonObjFuel o ≤ fuel →
    parseJsonObj fuel (jsonObjChars o ++ braceClose :: suffix) = some (o, suffix)
  | .nil, _, _, hne, _ => absurd rfl hne
  | .cons k v tl, 0, _, _, hf => by
    exfalso
    have h1 : jsonObjFuel (.cons k v tl) = jsonFuel v + jsonObjFuel tl + 1 := rfl
    omega
  | .cons k v .nil, f + 1, suffix, _, hf => by
    have h0 : jsonObjChars (.cons k v .nil) ++ braceClose :: suffix =
        '"' :: (escChars k.toList ++ '"' ::
          (':' :: ' ' :: (jsonChars v ++ braceClose :: suffix))) := by
      have h1 : jsonObjChars (.cons k v .nil) =
          '"' :: escChars k.toList ++ '"' :: ':' :: ' ' :: jsonChars v := rfl
      rw [h1]
      simp [List.append_assoc]
    rw [h0, parseJsonObj_succ, parseObjStep.eq_def]
    simp only []
    rw [parseStringBody_escChars k.toList [] _]
    simp only [List.nil_append, strMk_toList]
    have hfv : jsonFuel v ≤ f := by
      have h1 : jsonObjFuel (.cons k v .nil) = jsonFuel v + jsonObjFuel .nil + 1 := rfl
      have h2 : jsonObjFuel JsonObj.nil = 1 := rfl
      omega
    rw [parseJson_jsonChars v f (braceClose :: suffix) hfv
      (Or.inr ⟨braceClose, suffix, rfl, by decide⟩)]
    simp only [reduceIte]
  | .cons k v (.cons k2 v2 tl2), f + 1, suffix, _, hf => by
    have h0 : jsonObjChars (.cons k v (.cons k2 v2 tl2)) ++ braceClose :: suffix =
        '"' :: (escChars k.toList ++ '"' ::
          (':' :: ' ' :: (jsonChars v ++ ',' :: ' ' ::
            (jsonObjChars (.cons k2 v2 tl2) ++ braceClose :: suffix)))) := by
      have h1 : jsonObjChars (.cons k v (.cons k2 v2 tl2)) =
          '"' :: escChars k.toList ++ '"' :: ':' :: ' ' :: jsonChars v ++
            ',' :: ' ' :: jsonObjChars (.cons k2 v2 tl2) := rfl
      rw [h1]
      simp [List.append_assoc]
    rw [h0, parseJsonObj_succ, parseObjStep.eq_def]
    simp only []
    rw [parseStringBody_escChars k.toList [] _]
    simp only [List.nil_append, strMk_toList]
    have hfv : jsonFuel v ≤ f := by
      have h1 : jsonObjFuel (.cons k v (.cons k2 v2 tl2)) =
          jsonFuel v + jsonObjFuel (.cons k2 v2 tl2) + 1 := rfl
      omega
    rw [parseJson_jsonChars v f _ hfv (Or.inr ⟨',', _, rfl, by decide⟩)]
    simp only [reduceIte]
    have hfw : jsonObjFuel (.cons k2 v2 tl2) ≤ f := by
      have h1 : jsonObjFuel (.cons k v (.cons k2 v2 tl2)) =
          jsonFuel v + jsonObjFuel (.cons k2 v2 tl2) + 1 := rfl
      have h2 := jsonFuel_pos v
      omega
    rw [parseJsonObj_jsonObjChars (.cons k2 v2 tl2) f suffix
      (fun hx => JsonObj.noConfusion hx) hfw]
    rfl
end

mutual
/-- The fuel a value needs is at most twice the length of its serialized
form, so the fuel `jsonLoads` supplies always suffices. -/
theorem jsonFuel_le_len : ∀ v : Json, jsonFuel v ≤ 2 * (jsonChars v).length
  | .null => by decide
  | .bool true => by decide
  | .bool false => by decide
  | .num n => by
    have h1 : jsonFuel (.num n) = 1 := rfl
    have h2 : jsonChars (.num n) ≠ [] := jsonChars_ne_nil (.num n)
    have h3 := List.length_pos.mpr h2
    omega
  | .str s => by
    have h1 : jsonFuel (.str s) = 1 := rfl
    have h2 : jsonChars (.str s) ≠ [] := jsonChars_ne_nil (.str s)
    have h3 := List.length_pos.mpr h2
    omega
  | .arr a => by
    have h1 : jsonFuel (.arr a) = jsonArrFuel a + 1 := rfl
    have h2 : jsonChars (.arr a) = '[' :: jsonArrChars a ++ [']'] := rfl
    have h3 := jsonArrFuel_le_len a
    rw [h1, h2]
    simp only [List.length_cons, List.length_append]
    omega
  | .obj o => by
    have h1 : jsonFuel (.obj o) = jsonObjFuel o + 1 := rfl
    have h2 : jsonChars (.obj o) = braceOpen :: jsonObjChars o ++ [braceClose] := rfl
    have h3 := jsonObjFuel_le_len o
    rw [h1, h2]
    simp only [List.length_cons, List.length_append]
    omega

/-- Fuel-versus-length bound for array bodies. -/
theorem jsonArrFuel_le_len : ∀ a : JsonArr,
    jsonArrFuel a ≤ 2 * (jsonArrChars a).length + 2
  | .nil => by
    have h1 : jsonArrFuel .nil = 1 := rfl
    omega
  | .cons v .nil => by
    have h1 : jsonArrFuel (.cons v .nil) = jsonFuel v + jsonArrFuel .nil + 1 := rfl
    have h2 : jsonArrFuel JsonArr.nil = 1 := rfl
    have h3 : jsonArrChars (.cons v .nil) = jsonChars v := rfl
    have h4 := jsonFuel_le_len v
    rw [h1, h2, h3]
    omega
  | .cons v (.cons w tw) => by
    have h1 : jsonArrFuel (.cons v (.cons w tw)) =
        jsonFuel v + jsonArrFuel (.cons w tw) + 1 := rfl
    have h3 : jsonArrChars (.cons v (.cons w tw)) =
        jsonChars v ++ ',' :: ' ' :: jsonArrChars (.cons w tw) := rfl
    have h4 := jsonFuel_le_len v
    have h5 := jsonArrFuel_le_len (.cons w tw)
    rw [h1, h3]
    simp only [List.length_append, List.length_cons]
    omega

/-- Fuel-versus-length bound for object bodies. -/
theorem jsonObjFuel_le_len : ∀ o : JsonObj,
    jsonObjFuel o ≤ 2 * (jsonObjChars o).length + 2
  | .nil => by
    have h1 : jsonObjFuel .nil = 1 := rfl
    omega
  | .cons k v .nil => by
    have h1 : jsonObjFuel (.cons k v .nil) = jsonFuel v + jsonObjFuel .nil + 1 := rfl
    have h2 : jsonObjFuel JsonObj.nil = 1 := rfl
    have h3 : jsonObjChars (.cons k v .nil) =
        '"' :: escChars k.toList ++ '"' :: ':' :: ' ' :: jsonChars v := rfl
    have h4 := jsonFuel_le_len v
    rw [h1, h2, h3]
    simp only [List.length_append, List.length_cons]
    omega
  | .cons k v (.cons k2 v2 tl2) => by
    have h1 : jsonObjFuel (.cons k v (.cons k2 v2 tl2)) =
        jsonFuel v + jsonObjFuel (.cons k2 v2 tl2) + 1 := rfl
    have h3 : jsonObjChars (.cons k v (.cons k2 v2 tl2)) =
        '"' :: escChars k.toList ++ '"' :: ':' :: ' ' :: jsonChars v ++
          ',' :: ' ' :: jsonObjChars (.cons k2 v2 tl2) := rfl
    have h4 := jsonFuel_le_len v
    have h5 := jsonObjFuel_le_len (.cons k2 v2 tl2)
    rw [h1, h3]
    simp only [List.length_append, List.length_cons]
    omega
end

/-- Parsing inverts serialization on every JSON value. -/
theorem jsonLoads_mk_jsonChars (v : Json) :
    jsonLoads (String.mk (jsonChars v)) = some v := by
  have hb := jsonFuel_le_len v
  have h := parseJson_jsonChars v (2 * (jsonChars v).length + 2) []
    (by omega) (Or.inl rfl)
  rw [List.append_nil] at h
  rw [jsonLoads]
  have htl : (String.mk (jsonChars v)).toList = jsonChars v := rfl
  rw [htl, h]

/-- Embedding of the dumps-then-loads round trip on an attachments dict. -/
theorem jsonLoads_jsonDumpsObj (o : JsonObj) :
    jsonLoads (jsonDumpsObj o) = some (.obj o) :=
  jsonLoads_mk_jsonChars (.obj o)

/-- A serialized dict is a nonempty string, starting with a brace. -/
theorem jsonDumpsObj_ne_empty (o : JsonObj) : jsonDumpsObj o ≠ "" := by
  rw [jsonDumpsObj]
  intro h
  have h2 := congrArg String.toList h
  have h3 : (String.mk (jsonChars (.obj o))).toList = jsonChars (.obj o) := rfl
  rw [h3] at h2
  have h4 : jsonChars (.obj o) = braceOpen :: jsonObjChars o ++ [braceClose] := rfl
  rw [h4] at h2
  simp at h2

/-- The `MessageSentEventProto` message as proto3 field values: string
fields default to `""`, the int64 `sequence_number` to 0, the repeated
`target_channels` to `[]`. The generated `events_pb2` module is not under
src/; the field set follows its uses in proto_converter.py and the
services. `attachments_json` carries the JSON-serialized attachments bag. -/
structure ProtoMessageSent where
  message_id : String := ""
  conversation_id : String := ""
  sender_id : String := ""
  timestamp : String := ""
  message_type : String := ""
  content : String := ""
  attachments_json : String := ""
  status : String := ""
  sequence_number : Int := 0
  target_channels : List String := []
deriving DecidableEq, Repr

/-- Embedding of `ProtoConverter.message_sent_to_proto`
(proto_converter.py lines 18-33): attachments are JSON-serialized when
truthy (`None` and the empty dict both give `""`), a missing sequence
number becomes the proto default 0, all other fields are copied. -/
def messageSentToProto (e : MessageSentEvent) : ProtoMessageSent :=
  { message_id := e.message_id, conversation_id := e.conversation_id,
    sender_id := e.sender_id, timestamp := e.timestamp,
    message_type := e.message_type, content := e.content,
    attachments_json := match e.attachments with
      | none => ""
      | some o => if o = JsonObj.nil then "" else jsonDumpsObj o,
    status := e.status,
    sequence_number := match e.sequence_number with
      | none => 0
      | some n => n,
    target_channels := e.target_channels }

/-- Embedding of `ProtoConverter.message_sent_from_proto`
(proto_converter.py lines 36-51): an empty `attachments_json` becomes
`None`, otherwise the JSON is parsed (a `json.loads` failure raises, and a
JSON value that is not an object fails pydantic's `Dict[str, Any]`
validation, both modelled as `none`); a non-positive sequence number
becomes `None`. -/
def messageSentFromProto (p : ProtoMessageSent) : Option MessageSentEvent :=
  let att : Option (Option JsonObj) :=
    if p.attachments_json = "" then some none
    else match jsonLoads p.attachments_json with
      | some (.obj o) => some (some o)
      | _ => none
  att.map (fun a =>
    { message_id := p.message_id, conversation_id := p.conversation_id,
      sender_id := p.sender_id, timestamp := p.timestamp,
      message_type := p.message_type, content := p.content,
      attachments := a,
      status := p.status,
      sequence_number := if p.sequence_number > 0 then some p.sequence_number
        else none,
      target_channels := p.target_channels })

/-- The normalisation that a `to_proto`-then-`from_proto` round trip
performs: a non-positive sequence number and an absent or empty attachment
bag collapse to `none`. -/
def normalizeEvent (e : MessageSentEvent) : MessageSentEvent :=
  { e with
    sequence_number := match e.sequence_number with
      | some n => if 0 < n then some n else none
      | none => none,
    attachments := match e.attachments with
      | some o => if o = JsonObj.nil then none else some o
      | none => none }

/-- Claim C10: converting a `MessageSentEvent` to protobuf and back yields
the normalised event — equal to the original whenever the sequence number
is absent or positive and the attachments bag is absent or a nonempty
dictionary (over the whole JSON value domain: nested objects, arrays,
integers, booleans, null, strings); a zero sequence number or an empty
dict are normalised to `None` on the way back. -/
theorem message_sent_proto_roundtrip :
    (∀ e : MessageSentEvent,
      messageSentFromProto (messageSentToProto e) = some (normalizeEvent e)) ∧
    (∀ e : MessageSentEvent,
      (e.sequence_number = none ∨ ∃ n : Int, 0 < n ∧ e.sequence_number = some n) →
      (e.attachments = none ∨ ∃ o, o ≠ JsonObj.nil ∧ e.attachments = some o) →
      messageSentFromProto (messageSentToProto e) = some e) := by
  have hmain : ∀ e : MessageSentEvent,
      messageSentFromProto (messageSentToProto e) = some (normalizeEvent e) := by
    intro e
    rw [messageSentToProto, messageSentFromProto]
    cases hatt : e.attachments with
    | none =>
      cases hseq : e.sequence_number with
      | none => simp [normalizeEvent, hatt, hseq]
      | some n => simp [normalizeEvent, hatt, hseq]
    | some o =>
      by_cases hd : o = JsonObj.nil
      · subst hd
        cases hseq : e.sequence_number with
        | none => simp [normalizeEvent, hatt, hseq]
        | some n => simp [normalizeEvent, hatt, hseq]
      · cases hseq : e.sequence_number with
        | none =>
          simp [normalizeEvent, hatt, hseq, hd, jsonDumpsObj_ne_empty,
            jsonLoads_jsonDumpsObj]
        | some n =>
          simp [normalizeEvent, hatt, hseq, hd, jsonDumpsObj_ne_empty,
            jsonLoads_jsonDumpsObj]
  refine ⟨hmain, ?_⟩
  intro e hseq hatt
  rw [hmain e]
  have hnorm : normalizeEvent e = e := by
    rw [normalizeEvent]
    rcases hseq with hseq | ⟨n, hn, hseq⟩ <;>
      rcases hatt with hatt | ⟨o, hd, hatt⟩ <;>
      cases e <;>
      simp_all
  rw [hnorm]

/-- A concrete event used to witness the C10 round trip: its attachments
bag mixes a string value and an integer value, as the repository's file
messages do. -/
def roundtripSampleEvent : MessageSentEvent :=
  { message_id := "m1", conversation_id := "c1", sender_id := "alice",
    timestamp := "t1", message_type := "file", content := "hi",
    attachments := some (.cons "file_name" (.str "a.png")
      (.cons "size" (.num 1024) .nil)),
    status := "SENT",
    sequence_number := some 2, target_channels := ["delivery"] }

/-- Applying the C10 round-trip theorem to a concrete event with a positive
sequence number and a nonempty attachments bag holding a string and an
integer. -/
theorem message_sent_proto_roundtrip_witness :
    messageSentFromProto (messageSentToProto roundtripSampleEvent) =
      some roundtripSampleEvent :=
  message_sent_proto_roundtrip.2 roundtripSampleEvent
    (Or.inr ⟨2, by decide, rfl⟩)
    (Or.inr ⟨JsonObj.cons "file_name" (.str "a.png")
        (.cons "size" (.num 1024) .nil),
      fun h => JsonObj.noConfusion h, rfl⟩)

/-- Python dict lookup (first and only entry with the key, dict keys being
unique). -/
def lookupDict (d : List (String × String)) (k : String) : Option String :=
  (d.find? (fun p => p.1 == k)).map (·.2)

/-- The channel-to-topic routing table `CHANNEL_TOPIC_MAP` of the fan-out
dispatcher (fanout-service main.py lines 20-24), with the default topic
names; a channel outside the map produces no job (`if not target_topic:
continue`). -/
def channelTopicMap : String → Option String
  | "delivery" => some "connector.delivery.outbound.v1"
  | "whatsapp" => some "connector.whatsapp.outbound.v1"
  | "instagram" => some "connector.instagram.outbound.v1"
  | _ => none

/-- Embedding of `resolve_target_channels` (fanout-service main.py lines
26-44): if `"all"` is requested the target set is every identity channel,
else the set of requested channels (`set()` deduplicates; its iteration
order is unspecified and modelled as first occurrence); keep exactly the
targets present in the identities dict, each paired with its external id. -/
def resolveTargetChannels (requested : List String)
    (identities : List (String × String)) : List (String × String) :=
  let targetSet := if requested.contains "all" then identities.map (·.1)
    else requested.eraseDups
  targetSet.filterMap (fun ch =>
    (lookupDict identities ch).map (fun ext => (ch, ext)))

/-- The `DeliveryJobEventProto` the dispatcher constructs (fanout-service
main.py lines 99-105). -/
structure ProtoDeliveryJob where
  job_id : String
  message_id : String
  conversation_id : String
  recipient_id : String
  channel : String
  payload : ProtoMessageSent
deriving DecidableEq, Repr

/-- One conversation member as the dispatcher sees it: the member id from
`get_conversation_members` and the identities dict from
`get_user_identities` (both pass through the metadata client and service
unchanged). -/
structure FanMember where
  member_id : String
  identities : List (String × String)
deriving DecidableEq, Repr

/-- The jobs the dispatcher publishes for one member (fanout-service
main.py lines 76-113), each as (topic, partition key, job): skip the
sender (echo suppression), skip members with no identities, resolve the
routes, and for each routed channel with a mapped topic publish a job
whose id is the UUIDv5 of `"<message-id>:<member>:<channel>"` and whose
payload is the whole persisted event, keyed by the member id. -/
def jobsForMember (ev : ProtoMessageSent) (m : FanMember) :
    List (String × String × ProtoDeliveryJob) :=
  if m.member_id == ev.sender_id then []
  else if m.identities.isEmpty then []
  else
    let routes := resolveTargetChannels ev.target_channels m.identities
    if routes.isEmpty then []
    else routes.filterMap (fun r =>
      (channelTopicMap r.1).map (fun topic =>
        (topic, m.member_id,
          { job_id := uuid5Dns (ev.message_id ++ ":" ++ m.member_id ++ ":" ++ r.1),
            message_id := ev.message_id,
            conversation_id := ev.conversation_id,
            recipient_id := m.member_id,
            channel := r.1,
            payload := ev })))

/-- One fan-out dispatch of a persisted event (fanout-service main.py lines
60-113): zero members produce zero jobs, otherwise the per-member jobs in
member order. -/
def fanoutRun (ev : ProtoMessageSent) (members : List FanMember) :
    List (String × String × ProtoDeliveryJob) :=
  if members.isEmpty then [] else (members.map (jobsForMember ev)).flatten

/-- Claim C6: every delivery job emitted by the fan-out dispatcher carries
`job_id = uuidv5(DNS, "<message-id>:<recipient>:<channel>")`, its fields
and payload are determined by the persisted event and the member, and its
partition key is the recipient — and `fanoutRun` is a pure function of the
persisted event and the membership, so replaying it reproduces identical
jobs. -/
theorem fanout_job_id_uuid5 (ev : ProtoMessageSent) (members : List FanMember)
    (tkj : String × String × ProtoDeliveryJob)
    (h : tkj ∈ fanoutRun ev members) :
    tkj.2.2.job_id =
      uuid5Dns (ev.message_id ++ ":" ++ tkj.2.2.recipient_id ++ ":" ++
        tkj.2.2.channel) ∧
    tkj.2.2.message_id = ev.message_id ∧
    tkj.2.2.conversation_id = ev.conversation_id ∧
    tkj.2.2.payload = ev ∧
    tkj.2.1 = tkj.2.2.recipient_id := by
  rw [fanoutRun] at h
  split at h
  · simp at h
  · rw [List.mem_flatten] at h
    obtain ⟨l, hl, hmem⟩ := h
    obtain ⟨m, _, rfl⟩ := List.mem_map.mp hl
    rw [jobsForMember] at hmem
    split at hmem
    · simp at hmem
    · split at hmem
      · simp at hmem
      · dsimp only at hmem
        split at hmem
        · simp at hmem
        · obtain ⟨r, _, heq⟩ := List.mem_filterMap.mp hmem
          rw [Option.map_eq_some'] at heq
          obtain ⟨topic, _, heq⟩ := heq
          subst heq
          exact ⟨rfl, rfl, rfl, rfl, rfl⟩

/-- A concrete persisted event for the fan-out witnesses. -/
def fanoutSampleEvent : ProtoMessageSent :=
  { message_id := "m1", conversation_id := "c1", sender_id := "alice",
    timestamp := "t1", message_type := "text", content := "hi",
    status := "SENT", target_channels := ["delivery"] }

/-- A concrete non-sender member with only the delivery identity. -/
def fanoutSampleMember : FanMember := ⟨"bob", [("delivery", "bob")]⟩

/-- The single job the dispatcher emits for the concrete event and member. -/
def fanoutSampleJob : String × String × ProtoDeliveryJob :=
  ("connector.delivery.outbound.v1", "bob",
    { job_id := uuid5Dns ("m1" ++ ":" ++ "bob" ++ ":" ++ "delivery"),
      message_id := "m1", conversation_id := "c1", recipient_id := "bob",
      channel := "delivery", payload := fanoutSampleEvent })

set_option maxRecDepth 20000 in
/-- Applying the C6 theorem to the concrete emitted job. -/
theorem fanout_job_id_uuid5_witness :
    fanoutSampleJob.2.2.job_id =
      uuid5Dns (fanoutSampleEvent.message_id ++ ":" ++
        fanoutSampleJob.2.2.recipient_id ++ ":" ++
        fanoutSampleJob.2.2.channel) ∧
    fanoutSampleJob.2.2.message_id = fanoutSampleEvent.message_id ∧
    fanoutSampleJob.2.2.conversation_id = fanoutSampleEvent.conversation_id ∧
    fanoutSampleJob.2.2.payload = fanoutSampleEvent ∧
    fanoutSampleJob.2.1 = fanoutSampleJob.2.2.recipient_id :=
  fanout_job_id_uuid5 fanoutSampleEvent [fanoutSampleMember] fanoutSampleJob
    (by decide)

/-- A persisted event with an empty requested-channels list. -/
def emptyChannelsEvent : ProtoMessageSent :=
  { message_id := "m1", conversation_id := "c1", sender_id := "alice",
    timestamp := "t1", message_type := "text", content := "hi",
    status := "SENT", target_channels := [] }

/-- Claim C4 counterexample: the fan-out dispatcher does not substitute
`["delivery"]` for an empty requested-channels list: `resolve_target_channels`
intersects the empty set with the identities, so a persisted event with
empty `target_channels` produces zero jobs even for a non-sender member
whose identities include the delivery channel. -/
theorem fanout_empty_channels_counterexample :
    resolveTargetChannels [] [("delivery", "bob")] = [] ∧
      fanoutRun emptyChannelsEvent [⟨"bob", [("delivery", "bob")]⟩] = [] :=
  ⟨rfl, rfl⟩

/-- The `CreateMessageRequest` fields `send_message` reads (api-service
schemas.py lines 14-21); `target_channels` is optional. -/
structure CreateMessageRequest where
  idempotency_key : String
  conversation_id : String
  message_type : String := "text"
  content : String
  attachments : Option JsonObj := none
  target_channels : Option (List String) := none
deriving DecidableEq, Repr

/-- Embedding of the event construction in `send_message` (api-service
routers/messages.py lines 23-41): `channels = request.target_channels if
request.target_channels else ["delivery"]` — Python truthiness sends both
`None` and `[]` to the default — then a `MessageSentEvent` with status SENT
and no sequence number. The wall-clock timestamp and the authenticated
user id are inputs. -/
def sendMessageEvent (req : CreateMessageRequest) (userId ts : String) :
    MessageSentEvent :=
  { message_id := req.idempotency_key,
    conversation_id := req.conversation_id,
    sender_id := userId,
    timestamp := ts,
    message_type := req.message_type,
    content := req.content,
    attachments := req.attachments,
    status := "SENT",
    sequence_number := none,
    target_channels := match req.target_channels with
      | none => ["delivery"]
      | some l => if l.isEmpty then ["delivery"] else l }

/-- The ingestion worker's enrichment before publishing to the persisted
topic (ingestion-service main.py line 65): the assigned sequence number is
set on the proto event. -/
def persistedFromSubmit (p : ProtoMessageSent) (seq : Int) : ProtoMessageSent :=
  { p with sequence_number := seq }

/-- Claim C4 (amended): the empty-or-missing default is applied by the API,
not the dispatcher. `send_message` substitutes `["delivery"]` when the
request's `target_channels` is `None` or empty, and fan-out of the
resulting persisted event gives each non-sender member whose identities
include the `delivery` channel exactly one delivery job, on channel
`delivery`; a persisted event that itself carries an empty
requested-channels list produces zero jobs (see the counterexample). -/
theorem fanout_default_channel (req : CreateMessageRequest) (userId ts : String)
    (seq : Int) (m : FanMember) (ext : String)
    (hreq : req.target_channels = none ∨ req.target_channels = some [])
    (hm : ¬ m.member_id = userId)
    (hid : lookupDict m.identities "delivery" = some ext) :
    (sendMessageEvent req userId ts).target_channels = ["delivery"] ∧
    jobsForMember
        (persistedFromSubmit (messageSentToProto (sendMessageEvent req userId ts)) seq)
        m =
      [("connector.delivery.outbound.v1", m.member_id,
        { job_id := uuid5Dns (req.idempotency_key ++ ":" ++ m.member_id ++ ":" ++
            "delivery"),
          message_id := req.idempotency_key,
          conversation_id := req.conversation_id,
          recipient_id := m.member_id,
          channel := "delivery",
          payload := persistedFromSubmit
            (messageSentToProto (sendMessageEvent req userId ts)) seq })] := by
  have hch : (sendMessageEvent req userId ts).target_channels = ["delivery"] := by
    rcases hreq with hreq | hreq <;> simp [sendMessageEvent, hreq]
  refine ⟨hch, ?_⟩
  have hidne : ¬ m.identities.isEmpty = true := by
    cases hident : m.identities with
    | nil => rw [hident] at hid; simp [lookupDict] at hid
    | cons a l => simp
  have hsender : (persistedFromSubmit
      (messageSentToProto (sendMessageEvent req userId ts)) seq).sender_id =
      userId := rfl
  have hchp : (persistedFromSubmit
      (messageSentToProto (sendMessageEvent req userId ts)) seq).target_channels =
      ["delivery"] := by
    simp [persistedFromSubmit, messageSentToProto, hch]
  have hroutes : resolveTargetChannels ["delivery"] m.identities =
      [("delivery", ext)] := by
    rw [resolveTargetChannels]
    have hall : (["delivery"].contains "all") = false := by decide
    rw [hall]
    simp [List.eraseDups, List.filterMap, hid]
  rw [jobsForMember]
  have hmne : (m.member_id == (persistedFromSubmit
      (messageSentToProto (sendMessageEvent req userId ts)) seq).sender_id) =
      false := by
    rw [hsender]
    exact beq_eq_false_iff_ne.mpr hm
  rw [hmne]
  simp only [Bool.false_eq_true, if_false]
  rw [if_neg hidne]
  rw [hchp, hroutes]
  simp [channelTopicMap]
  exact ⟨rfl, rfl, rfl⟩

/-- A concrete request with no target channels. -/
def sampleRequest : CreateMessageRequest :=
  { idempotency_key := "m1", conversation_id := "c1", content := "hi" }

/-- Applying the amended C4 theorem to a concrete request with missing
target channels and a member holding only the delivery identity. -/
theorem fanout_default_channel_witness :
    (sendMessageEvent sampleRequest "alice" "t1").target_channels =
      ["delivery"] ∧
    jobsForMember
        (persistedFromSubmit
          (messageSentToProto (sendMessageEvent sampleRequest "alice" "t1")) 1)
        ⟨"bob", [("delivery", "bob")]⟩ =
      [("connector.delivery.outbound.v1", "bob",
        { job_id := uuid5Dns ("m1" ++ ":" ++ "bob" ++ ":" ++ "delivery"),
          message_id := "m1",
          conversation_id := "c1",
          recipient_id := "bob",
          channel := "delivery",
          payload := persistedFromSubmit
            (messageSentToProto (sendMessageEvent sampleRequest "alice" "t1")) 1 })] := by
  have h := fanout_default_channel sampleRequest "alice" "t1" 1
    ⟨"bob", [("delivery", "bob")]⟩ "bob" (Or.inl rfl) (by decide) rfl
  simpa using h

end Chat4all
